import Mathlib

/-!
# Clovis compiler — formal model of the front-end and codegen core

A shallow embedding, in Lean 4, of the Clovis compiler (Go).  Each
definition mirrors one Go function of the current revision of the source:

  * `lexer/token.go`       — token kinds and tokens;
  * `semantics/types.go`   — the type lattice (`Type` interface and its
    variants `Undefined`, `UintLiteral`, `Uint64/32/16/8`, `Bool`, `Ptr`,
    `Array`);
  * `semantics/semantics.go` (the revision whose `PopBlock` returns the
    freed size) — `Symbol`, `SemanticChecker`, `PushSymbol`, `PushBlock`,
    `PopBlock`, `GetSymbol`, `TopBlockHasSymbol`;
  * `parser/node.go`       — the AST (`Statement`/`Expression` variants),
    their `Semantics`, `EmitCode`, `EmitAddressCode`, `IsAddressable`;
  * `parser/parser.go`     — the recursive-descent parser (fuel-indexed);
  * `codegen/emitter.go`   — `Emitter`, `NextLabel`, `ASMBinaryOp`.

Go stacks (`utils.Stack`) are lists with the top at the head; `Stack.Size`
is the list length.  Go `nil` interface values are modelled explicitly
(`Stmt.nilStmt`, `Option`).  Functions that can panic or diverge in Go
return `Option`/`Except`: `none`/`.error` marks the panic or the
divergence, never a silently-invented value.
-/

namespace Clovis

/-! ## Tokens — lexer/token.go -/

/-- lexer/token.go: the closed set of token kinds. -/
inductive TokenType where
  | EOF | SEMI
  | IF | ELSE | WHILE | FOR
  | UINT_64 | UINT_32 | UINT_16 | UINT_8 | BOOL | ASSERT
  | UINT_64_LIT | TRUE_LIT | FALSE_LIT | IDENT
  | OPEN_PAREN | CLOSE_PAREN | OPEN_CURLY | CLOSE_CURLY
  | OPEN_BRACKET | CLOSE_BRACKET
  | EQ | NEQ | LESS_THAN | LESS_EQ_THAN | GREATER_THAN | GREATER_EQ_THAN
  | NOT | PLUS | PLUS_PLUS | MINUS | MINUS_MINUS | STAR | F_SLASH
  | ASSIGN | AMPERSAND
  deriving DecidableEq, Repr

/-- lexer/token.go: `Token` — kind, lexeme, 1-based line and column. -/
structure Token where
  type  : TokenType
  value : String
  line  : Nat
  col   : Nat
  deriving DecidableEq, Repr

/-- The zero `Token`; also stands in for Go's out-of-range behaviour in the
parser model (`EOF`-typed so the parser's loop guards stop; the Go code would
panic instead, but no modelled run indexes out of range). -/
instance : Inhabited Token := ⟨⟨.EOF, "", 0, 0⟩⟩

/-! ## The type lattice — semantics/types.go -/

/-- semantics/types.go: the `Type` interface's closed set of variants.
`ptr` carries `ValueType`, `array` carries `Base` and `Length`. -/
inductive Ty where
  | undefined
  | uintLiteral
  | uint64
  | uint32
  | uint16
  | uint8
  | bool
  | ptr (valueType : Ty)
  | array (base : Ty) (length : Nat)
  deriving DecidableEq, Repr

namespace Ty

/-- semantics/types.go: each variant's `TypeID()`.  `Ptr` renders
`"%v_PTR"` of the payload, `Array` renders `"%v_ARRAY(%v)"`. -/
def typeID : Ty → String
  | undefined   => "UNDEFINED"
  | uintLiteral => "UINT_LIT"
  | uint64      => "UINT64"
  | uint32      => "UINT32"
  | uint16      => "UINT16"
  | uint8       => "UINT8"
  | bool        => "BOOL"
  | ptr t       => typeID t ++ "_PTR"
  | array b n   => typeID b ++ "_ARRAY(" ++ Nat.repr n ++ ")"

/-- semantics/types.go: each variant's `Size()` in bytes. -/
def size : Ty → Nat
  | undefined   => 8
  | uintLiteral => 8
  | uint64      => 8
  | uint32      => 4
  | uint16      => 2
  | uint8       => 1
  | bool        => 1
  | ptr _       => 8
  | array b n   => n * size b

/-- semantics/types.go: each variant's `Register()`. -/
def register : Ty → String
  | undefined   => "rax"
  | uintLiteral => "rax"
  | uint64      => "rax"
  | uint32      => "eax"
  | uint16      => "ax"
  | uint8       => "al"
  | bool        => "al"
  | ptr _       => "rax"
  | array _ _   => "rax"

/-- semantics/types.go: each variant's `ASMSize()`. -/
def asmSize : Ty → String
  | undefined   => ""
  | uintLiteral => "QWORD"
  | uint64      => "QWORD"
  | uint32      => "DWORD"
  | uint16      => "WORD"
  | uint8       => "BYTE"
  | bool        => "BYTE"
  | ptr _       => "QWORD"
  | array _ _   => "QWORD"

/-- semantics/types.go: `IsNumber` — switches on `TypeID()`. -/
def isNumber (t : Ty) : Bool :=
  typeID t == "UINT64" || typeID t == "UINT32" || typeID t == "UINT16" ||
  typeID t == "UINT8" || typeID t == "UINT_LIT"

/-- semantics/types.go: the per-variant `Equals(other)` methods.  Every
fixed-width case compares `TypeID()` strings exactly as the Go code does;
`Ptr` compares the structural id strings; `Array` additionally accepts any
array whose base is `Equals` to its own. -/
def equals : Ty → Ty → Bool
  | undefined,   _ => false
  | uintLiteral, o => typeID o == "UINT_LIT" || typeID o == "UINT64"
  | uint64,      o => typeID o == "UINT64" || typeID o == "UINT_LIT"
  | uint32,      o => typeID o == "UINT32" || typeID o == "UINT_LIT"
  | uint16,      o => typeID o == "UINT16" || typeID o == "UINT_LIT"
  | uint8,       o => typeID o == "UINT8" || typeID o == "UINT_LIT"
  | bool,        o => typeID o == "BOOL"
  | ptr t,       o => typeID (ptr t) == typeID o
  | array b n,   o =>
      typeID (array b n) == typeID o ||
      (match o with
       | array b2 _ => equals b b2
       | _ => false)

/-- semantics/types.go: the per-variant `CanUseOperator(op, operand)`
methods, returning `(allowed, result type)`. -/
def canUseOperator : Ty → String → Ty → Bool × Ty
  | undefined, _, _ => (false, undefined)
  | uintLiteral, op, operand =>
      if ¬ isNumber operand then (false, undefined)
      else if op == "+" || op == "-" || op == "*" || op == "/" || op == "=" then
        (true, operand)
      else if op == "==" || op == "<" || op == ">" || op == "<=" ||
              op == ">=" || op == "!=" then
        (true, bool)
      else (false, undefined)
  | uint64, op, operand =>
      if typeID operand != "UINT64" && typeID operand != "UINT_LIT" then
        (false, undefined)
      else if op == "+" || op == "-" || op == "*" || op == "/" || op == "=" then
        (true, uint64)
      else if op == "==" || op == "<" || op == ">" || op == "<=" ||
              op == ">=" || op == "!=" then
        (true, bool)
      else (false, undefined)
  | uint32, op, operand =>
      if typeID operand != "UINT32" && typeID operand != "UINT_LIT" then
        (false, undefined)
      else if op == "+" || op == "-" || op == "*" || op == "/" || op == "=" then
        (true, uint32)
      else if op == "==" || op == "<" || op == ">" || op == "<=" ||
              op == ">=" || op == "!=" then
        (true, bool)
      else (false, undefined)
  | uint16, op, operand =>
      if typeID operand != "UINT16" && typeID operand != "UINT_LIT" then
        (false, undefined)
      else if op == "+" || op == "-" || op == "*" || op == "/" || op == "=" then
        (true, uint16)
      else if op == "==" || op == "<" || op == ">" || op == "<=" ||
              op == ">=" || op == "!=" then
        (true, bool)
      else (false, undefined)
  | uint8, op, operand =>
      if typeID operand != "UINT8" && typeID operand != "UINT_LIT" then
        (false, undefined)
      else if op == "+" || op == "-" || op == "*" || op == "/" || op == "=" then
        (true, uint8)
      else if op == "==" || op == "<" || op == ">" || op == "<=" ||
              op == ">=" || op == "!=" then
        (true, bool)
      else (false, undefined)
  | bool, op, operand =>
      if typeID operand != "BOOL" then (false, undefined)
      else if op == "==" || op == "<" || op == ">" || op == "<=" ||
              op == ">=" || op == "!=" || op == "=" then
        (true, bool)
      else (false, undefined)
  | ptr t, op, operand =>
      if typeID (ptr t) != typeID operand then (false, undefined)
      else if op == "=" then (true, ptr t)
      else (false, undefined)
  | array _ _, _, _ => (false, undefined)

/-- semantics/types.go: the per-variant `CanUseUnaryOperator(op)` methods. -/
def canUseUnaryOperator : Ty → String → Bool × Ty
  | undefined, _   => (false, undefined)
  | uintLiteral, _ => (false, undefined)
  | uint64, op     => if op == "&" then (true, ptr uint64) else (false, undefined)
  | uint32, op     => if op == "&" then (true, ptr uint32) else (false, undefined)
  | uint16, op     => if op == "&" then (true, ptr uint16) else (false, undefined)
  | uint8, op      => if op == "&" then (true, ptr uint8) else (false, undefined)
  | bool, op       => if op == "&" then (true, ptr bool) else (false, undefined)
  | ptr t, op      =>
      if op == "*" then (true, t)
      else if op == "&" then (true, ptr (ptr t))
      else (false, undefined)
  | array _ _, _   => (false, undefined)

end Ty

/-! ## Symbols and the semantic checker — semantics/semantics.go

The revision in force is the one whose `PopBlock` walks the *symbol table*
down to the popped block-start index and returns the freed size (the one
`BlockStmt.Semantics` assigns to `stmt.BlockSize`). -/

/-- semantics/semantics.go: `Symbol`. -/
structure Symbol where
  ident  : String
  ty     : Ty
  offset : Nat
  size   : Nat
  tok    : Token
  deriving DecidableEq, Repr

/-- The zero `Symbol` (Go's zero value; its `Type` field is a nil interface,
rendered here as `Ty.undefined`).  AST nodes carry it until `Semantics`
overwrites it. -/
def zeroSymbol : Symbol := ⟨"", Ty.undefined, 0, 0, default⟩

/-- semantics/semantics.go: `SemanticChecker`.  Both stacks keep their top at
the head; `utils.Stack.Size` is the length.  Error values are kept as their
message strings. -/
structure SemanticChecker where
  errors          : List String
  symbolTable     : List Symbol
  blockIndexTable : List Nat
  nextAddr        : Nat
  deriving DecidableEq, Repr

namespace SemanticChecker

/-- semantics/semantics.go: `NewSemanticChecker` — pushes index 0 for the
global scope. -/
def new : SemanticChecker := ⟨[], [], [0], 0⟩

/-- semantics/semantics.go: `AddError` — appends to the checker's error list
and returns the error. -/
def addError (c : SemanticChecker) (msg : String) : SemanticChecker × String :=
  ({ c with errors := c.errors ++ [msg] }, msg)

/-- semantics/semantics.go: `TopBlockHasSymbol` — scans the symbol table from
the top down to the top block-start index. -/
def topBlockHasSymbol (c : SemanticChecker) (ident : String) : Bool :=
  match c.blockIndexTable with
  | [] => false
  | topBlockIndex :: _ =>
      (c.symbolTable.take (c.symbolTable.length - topBlockIndex)).any
        (fun s => s.ident == ident)

/-- semantics/semantics.go: `PushSymbol` — on redeclaration in the top block,
records the error; otherwise pushes a symbol whose offset is
`nextAddr + Size(type)` and advances `nextAddr` by `Size(type)`. -/
def pushSymbol (c : SemanticChecker) (ident : String) (symbolType : Ty)
    (token : Token) : SemanticChecker × Option String :=
  if c.topBlockHasSymbol ident then
    let (c2, e) := c.addError ("Redeclaration of symbol " ++ ident)
    (c2, some e)
  else
    let symbolSize := symbolType.size
    let symbol : Symbol :=
      ⟨ident, symbolType, c.nextAddr + symbolSize, symbolSize, token⟩
    ({ c with nextAddr := c.nextAddr + symbolSize,
              symbolTable := symbol :: c.symbolTable }, none)

/-- semantics/semantics.go: `TopSymbol` — top of the symbol table
(`StackUnderflow` on empty, modelled as `none`). -/
def topSymbol (c : SemanticChecker) : Option Symbol :=
  c.symbolTable.head?

/-- semantics/semantics.go: `PushBlock` — records the symbol-table depth as
the new block-start index. -/
def pushBlock (c : SemanticChecker) : SemanticChecker :=
  { c with blockIndexTable := c.symbolTable.length :: c.blockIndexTable }

/-- semantics/semantics.go: `PopBlock` — pops the top block-start index, pops
symbols down to it, and returns the total freed size (0 when the block-index
stack is empty). -/
def popBlock (c : SemanticChecker) : SemanticChecker × Nat :=
  match c.blockIndexTable with
  | [] => (c, 0)
  | topBlockIndex :: rest =>
      let k := c.symbolTable.length - topBlockIndex
      let popped := c.symbolTable.take k
      ({ c with blockIndexTable := rest, symbolTable := c.symbolTable.drop k },
       (popped.map Symbol.size).sum)

/-- semantics/semantics.go: `GetSymbol` — searches the symbol stack from the
top; a miss appends "Undeclared symbol". -/
def getSymbol (c : SemanticChecker) (ident : Token) :
    Option Symbol × SemanticChecker :=
  match c.symbolTable.find? (fun s => s.ident == ident.value) with
  | some s => (some s, c)
  | none   =>
      let (c2, _) := c.addError ("Undeclared symbol " ++ ident.value)
      (none, c2)

end SemanticChecker

/-! ## The AST — parser/node.go

Expressions first (they do not contain statements), then statements.
Every node's fields mirror the Go struct; `Ty.undefined` stands for a type
field the parser left as Go's nil interface or `Undefined{}`. -/

/-- parser/node.go: the `Expression` variants.
`prefixExpression`/`postfixExpression` model `PrefixExpression` and
`PostfixExpression` (their `Semantics`/`EmitCode` are empty TODO stubs in
the source); `arrayAccess` models `ArrayAccessExpression`, whose struct the
parser constructs (`parser.go parseArrayAccess`) but whose node file is not
in the source tree — its semantic behaviour is modelled from the spec where
needed, and marked so. -/
inductive Expr where
  | binary (ty : Ty) (left : Expr) (op : Token) (right : Expr)
  | prefixExpression (ty : Ty) (op : Token) (right : Expr) (addressable : Bool)
  | postfixExpression (ty : Ty) (left : Expr) (op : Token) (addressable : Bool)
  | deref (ty : Ty) (op : Token) (right : Expr)
  | ref (ty : Ty) (op : Token) (right : Expr)
  | lit (ty : Ty) (value : Token)
  | ident (ty : Ty) (identTok : Token) (symbol : Symbol)
  | group (ty : Ty) (expr : Expr)
  | arrayAccess (ty : Ty) (left : Expr) (indexExpr : Expr) (openBracket : Token)
  deriving DecidableEq, Repr

/-- parser/node.go: the `Statement` variants.  `nilStmt` is the Go `nil`
`Statement` interface value (`parseStatement` returns it for `while`/`for`);
calling `Semantics` or `EmitCode` on it panics in Go. -/
inductive Stmt where
  | nilStmt
  | varDecl (varType : Ty) (ident : Token) (value : Option Expr) (symbol : Symbol)
  | varDef (left : Expr) (op : Token) (right : Expr)
  | block (statements : List Stmt) (blockSize : Nat)
  | ifStmt (ifToken : Token) (condition : Expr) (stmt : Stmt)
      (elseStmt : Option Stmt)
  | assertStmt (assertToken : Token) (expr : Expr)
  | exprStmt (expr : Expr)

namespace Expr

/-- parser/node.go: `ExprType()` — every variant returns its `Type` field. -/
def exprType : Expr → Ty
  | binary t _ _ _ => t
  | prefixExpression t _ _ _ => t
  | postfixExpression t _ _ _ => t
  | deref t _ _ => t
  | ref t _ _ => t
  | lit t _ => t
  | ident t _ _ => t
  | group t _ => t
  | arrayAccess t _ _ _ => t

/-- parser/node.go: the per-variant `IsAddressable()` methods, run with the
given amount of fuel.  `GroupExpression.IsAddressable` is
`return exp.IsAddressable()` — it calls *itself*, not the inner
expression, so the `group` case recurses on the same node and only fuel
exhaustion (`none`) can answer.  Every other variant answers immediately.
`arrayAccess` — Modelled from the spec: `ArrayAccessExpression` is absent
from the source tree; §4.2 says the node is addressable. -/
def isAddressableFuel : Nat → Expr → Option Bool
  | _, binary _ _ _ _ => some false
  | _, prefixExpression _ _ _ a => some a
  | _, postfixExpression _ _ _ a => some a
  | _, deref _ _ _ => some true
  | _, ref _ _ _ => some true
  | _, lit _ _ => some false
  | _, ident _ _ _ => some true
  | 0, group _ _ => none
  | n + 1, group t e => isAddressableFuel n (group t e)
  | _, arrayAccess _ _ _ _ => some true

/-- The limit of `isAddressableFuel`: what `IsAddressable()` denotes as a
partial function.  `group` never returns (`none`); all other variants are
fuel-independent. -/
def isAddressableOpt : Expr → Option Bool
  | binary _ _ _ _ => some false
  | prefixExpression _ _ _ a => some a
  | postfixExpression _ _ _ a => some a
  | deref _ _ _ => some true
  | ref _ _ _ => some true
  | lit _ _ => some false
  | ident _ _ _ => some true
  | group _ _ => none
  | arrayAccess _ _ _ _ => some true

/-- parser/node.go: which variants implement the `AddressableExpression`
interface, i.e. have an `EmitAddressCode` method — `DerefExpression`,
`ReferenceExpression`, `IdentExpression`, `GroupExpression`.  Go's
`x.(AddressableExpression)` type assertions test exactly this.
`arrayAccess` — Modelled from the spec: the node file is absent; §3 says
addressable expressions support address-of-emission and §4.2 makes the node
addressable. -/
def isAddressableInterface : Expr → Bool
  | deref _ _ _ => true
  | ref _ _ _ => true
  | ident _ _ _ => true
  | group _ _ => true
  | arrayAccess _ _ _ _ => true
  | _ => false

end Expr

/-! ## Semantic analysis — parser/node.go `Semantics` methods

Go nodes are mutated through pointers, so each function returns the updated
node together with the updated checker and the `error` return value
(`none` for Go `nil`).  The outer `Option` is partiality: `none` marks a run
the Go code would not complete (a panic on a `nil` statement, or the
infinite recursion inside `GroupExpression.IsAddressable`). -/

/-- parser/node.go: the `Semantics` methods of the `Expression` variants.
`ReferenceExpression.Semantics` consults `Right.IsAddressable()`, which
diverges when `Right` is a group (see `Expr.isAddressableFuel`); the
`isAddressableOpt` limit makes that divergence a `none` here.
`arrayAccess` — Modelled from the spec: §4.2 *ArrayAccess* (node file absent
from the source tree): index must be a number; base must be `Array(T,N)` or
`Ptr(T)`; result type `T`. -/
def semExpr : Expr → SemanticChecker → Option (Expr × SemanticChecker × Option String)
  | .binary t l op r, c => do
      let (l2, c1, e1) ← semExpr l c
      if e1.isSome then
        return (.binary t l2 op r, c1, e1)
      else do
      let (r2, c2, e2) ← semExpr r c1
      if e2.isSome then
        return (.binary t l2 op r2, c2, e2)
      else
      let (legal, tres) := l2.exprType.canUseOperator op.value r2.exprType
      if ¬ legal then
        let (c3, msg) := c2.addError
          ("Cannot use operator " ++ op.value ++ " between types " ++
           l2.exprType.typeID ++ " and " ++ r2.exprType.typeID)
        return (.binary t l2 op r2, c3, some msg)
      else
        return (.binary tres l2 op r2, c2, none)
  | .prefixExpression t op r a, c => some (.prefixExpression t op r a, c, none)
  | .postfixExpression t l op a, c => some (.postfixExpression t l op a, c, none)
  | .deref t op r, c => do
      let (r2, c1, e1) ← semExpr r c
      if e1.isSome then
        return (.deref t op r2, c1, e1)
      else
      match r2.exprType with
      | .ptr vt => return (.deref vt op r2, c1, none)
      | other =>
          let (c2, msg) := c1.addError
            ("Deref operator expected a PTR not " ++ other.typeID)
          return (.deref t op r2, c2, some msg)
  | .ref t op r, c => do
      let (r2, c1, e1) ← semExpr r c
      if e1.isSome then
        return (.ref t op r2, c1, e1)
      else do
      let addressable ← r2.isAddressableOpt
      if ¬ addressable then
        let (c2, msg) := c1.addError "Expected an addressable expression"
        return (.ref t op r2, c2, some msg)
      else
        return (.ref (.ptr r2.exprType) op r2, c1, none)
  | .lit t v, c => some (.lit t v, c, none)
  | .ident t tok sym, c =>
      match c.getSymbol tok with
      | (some s, c1) => some (.ident s.ty tok s, c1, none)
      | (none, c1) => some (.ident t tok sym, c1, some "Undeclared symbol")
  | .group t e, c => do
      let (e2, c1, e1) ← semExpr e c
      if e1.isSome then
        return (.group t e2, c1, e1)
      else
        return (.group e2.exprType e2, c1, none)
  | .arrayAccess t l idx br, c => do
      let (l2, c1, e1) ← semExpr l c
      if e1.isSome then
        return (.arrayAccess t l2 idx br, c1, e1)
      else do
      let (idx2, c2, e2) ← semExpr idx c1
      if e2.isSome then
        return (.arrayAccess t l2 idx2 br, c2, e2)
      else
      if ¬ idx2.exprType.isNumber then
        let (c3, msg) := c2.addError "Array access index must be a number"
        return (.arrayAccess t l2 idx2 br, c3, some msg)
      else
      match l2.exprType with
      | .array b _ => return (.arrayAccess b l2 idx2 br, c2, none)
      | .ptr vt => return (.arrayAccess vt l2 idx2 br, c2, none)
      | other =>
          let (c3, msg) := c2.addError
            ("Array access expected an ARRAY or PTR not " ++ other.typeID)
          return (.arrayAccess t l2 idx2 br, c3, some msg)

/-- parser/node.go: `VarDeclStmt.Semantics` — optional initializer
analysis, the number/`TypeID` compatibility check, `PushSymbol`, and the
`TopSymbol` copy into the node. -/
def semVarDecl (vt : Ty) (id : Token) (val : Option Expr) (sym : Symbol)
    (c : SemanticChecker) : Option (Stmt × SemanticChecker × Option String) := do
  match val with
  | some v => do
      let (v2, c1, e1) ← semExpr v c
      if e1.isSome then
        return (.varDecl vt id (some v2) sym, c1, e1)
      else
      if ¬ (vt.isNumber && v2.exprType.isNumber) &&
         ¬ (vt.typeID == v2.exprType.typeID) then
        let (c2, msg) := c1.addError
          ("Declared type " ++ vt.typeID ++ " and initialized value type "
           ++ v2.exprType.typeID ++ " do not match")
        return (.varDecl vt id (some v2) sym, c2, some msg)
      else
      match c1.pushSymbol id.value vt id with
      | (c2, some e) => return (.varDecl vt id (some v2) sym, c2, some e)
      | (c2, none) =>
          return (.varDecl vt id (some v2) (c2.topSymbol.getD zeroSymbol),
                  c2, none)
  | none =>
      match c.pushSymbol id.value vt id with
      | (c2, some e) => return (.varDecl vt id none sym, c2, some e)
      | (c2, none) =>
          return (.varDecl vt id none (c2.topSymbol.getD zeroSymbol),
                  c2, none)

/-- parser/node.go: `VarDefinitionStmt.Semantics` — both sides analyzed,
the `AddressableExpression` interface assertion on the left, and the
`CanUseOperator("=", ·)` check. -/
def semVarDef (l : Expr) (op : Token) (r : Expr) (c : SemanticChecker) :
    Option (Stmt × SemanticChecker × Option String) := do
  let (l2, c1, e1) ← semExpr l c
  if e1.isSome then
    return (.varDef l2 op r, c1, e1)
  else do
  let (r2, c2, e2) ← semExpr r c1
  if e2.isSome then
    return (.varDef l2 op r2, c2, e2)
  else
  if ¬ l2.isAddressableInterface then
    let (c3, msg) :=
      c2.addError "Left side of assignment only accepts addressable expressions"
    return (.varDef l2 op r2, c3, some msg)
  else
  let (legal, _) := l2.exprType.canUseOperator "=" r2.exprType
  if ¬ legal then
    let (c3, msg) := c2.addError
      ("Cannot assign type " ++ r2.exprType.typeID ++
       " to address with type " ++ l2.exprType.typeID)
    return (.varDef l2 op r2, c3, some msg)
  else
    return (.varDef l2 op r2, c2, none)

/-- parser/node.go: `AssertStmt.Semantics` — the expression must be BOOL. -/
def semAssert (at_ : Token) (ex : Expr) (c : SemanticChecker) :
    Option (Stmt × SemanticChecker × Option String) := do
  let (ex2, c1, e1) ← semExpr ex c
  if e1.isSome then
    return (.assertStmt at_ ex2, c1, e1)
  else
  if ex2.exprType.typeID != "BOOL" then
    let (c2, msg) := c1.addError "Assert statement expects a boolean expression"
    return (.assertStmt at_ ex2, c2, some msg)
  else
    return (.assertStmt at_ ex2, c1, none)

/-- parser/node.go: `ExpressionStmt.Semantics` — delegates. -/
def semExprStmt (ex : Expr) (c : SemanticChecker) :
    Option (Stmt × SemanticChecker × Option String) := do
  let (ex2, c1, e1) ← semExpr ex c
  return (.exprStmt ex2, c1, e1)

mutual

/-- parser/node.go: the `Semantics` methods of the `Statement` variants
(dispatch; the non-recursive nodes live in `semVarDecl`, `semVarDef`,
`semAssert`, `semExprStmt` above; `BlockStmt.Semantics` and
`IfStmt.Semantics` are the two inline recursive cases).  `nilStmt` is a Go
nil-interface method call — a panic, hence `none`. -/
def semStmt : Stmt → SemanticChecker → Option (Stmt × SemanticChecker × Option String)
  | .nilStmt, _ => none
  | .varDecl vt id val sym, c => semVarDecl vt id val sym c
  | .varDef l op r, c => semVarDef l op r c
  | .block stmts _bs, c => do
      let c1 := c.pushBlock
      let (stmts2, c2) ← semStmts stmts c1
      let (c3, size) := c2.popBlock
      return (.block stmts2 size, c3, none)
  | .ifStmt it cond st els, c => do
      let (cond2, c1, e1) ← semExpr cond c
      if e1.isSome then
        return (.ifStmt it cond2 st els, c1, e1)
      else
      if cond2.exprType.typeID != "BOOL" then
        let (c2, msg) := c1.addError
          ("If statement condition must be of type BOOL received " ++
           cond2.exprType.typeID)
        return (.ifStmt it cond2 st els, c2, some msg)
      else do
      let (st2, c2, e2) ← semStmt st c1
      if e2.isSome then
        return (.ifStmt it cond2 st2 els, c2, e2)
      else
      match els with
      | none => return (.ifStmt it cond2 st2 none, c2, none)
      | some es => do
          let (es2, c3, e3) ← semStmt es c2
          if e3.isSome then
            return (.ifStmt it cond2 st2 (some es2), c3, e3)
          else
            return (.ifStmt it cond2 st2 (some es2), c3, none)
  | .assertStmt at_ ex, c => semAssert at_ ex c
  | .exprStmt ex, c => semExprStmt ex c
termination_by st _ => sizeOf st

/-- parser/node.go: the statement loop inside `BlockStmt.Semantics` — every
statement's `Semantics` runs and its error return is ignored (errors are
already in the checker); a panic or divergence in any statement aborts. -/
def semStmts : List Stmt → SemanticChecker → Option (List Stmt × SemanticChecker)
  | [], c => some ([], c)
  | s :: rest, c => do
      let (s2, c1, _) ← semStmt s c
      let (rest2, c2) ← semStmts rest c1
      return (s2 :: rest2, c2)
termination_by ss _ => sizeOf ss

end

/-! ## The emitter — codegen/emitter.go -/

/-- codegen/emitter.go: `Emitter` — the growing assembly text (kept here as
the list of written chunks; the Go `Code` string is their concatenation)
and the label counter. -/
structure Emitter where
  code       : List String
  labelCount : Nat
  deriving DecidableEq, Repr

namespace Emitter

/-- codegen/emitter.go: `NewEmitter` — the prologue. -/
def new : Emitter :=
  ⟨["section .text\n", "global _start\n\n", "_start:\n", "mov rbp, rsp\n\n"], 0⟩

/-- One `Fprintf`/`WriteString` call. -/
def write (e : Emitter) (s : String) : Emitter :=
  { e with code := e.code ++ [s] }

/-- codegen/emitter.go: the `".L%02v"` rendering of a label number. -/
def labelName (n : Nat) : String :=
  ".L" ++ (if n < 10 then "0" ++ Nat.repr n else Nat.repr n)

/-- codegen/emitter.go: `NextLabel` — increments the counter, returns the
label text. -/
def nextLabel (e : Emitter) : String × Emitter :=
  (labelName (e.labelCount + 1), { e with labelCount := e.labelCount + 1 })

/-- codegen/emitter.go: `End` — the Linux `exit(0)` epilogue. -/
def «end» (e : Emitter) : Emitter :=
  e.write "\n; Emitter.End()\nmov rax, 60\nmov rdi, 0\nsyscall\n"

end Emitter

/-- codegen/emitter.go: `ASMBinaryOp` — operator lexeme to mnemonic. -/
def asmBinaryOp (op : Token) : String :=
  if op.value == "+" then "add"
  else if op.value == "-" then "sub"
  else if op.value == "*" then "mul"
  else if op.value == "/" then "div"
  else if op.value == "==" then "sete"
  else if op.value == "!=" then "setne"
  else if op.value == "<" then "setl"
  else if op.value == "<=" then "setle"
  else if op.value == ">" then "setg"
  else if op.value == ">=" then "setge"
  else ""

/-! ## Code emission — parser/node.go `EmitCode` / `EmitAddressCode`

`Except.error` is a Go panic: `ReferenceExpression.EmitAddressCode`'s
explicit `panic`, or a method call through a failed
`.(AddressableExpression)` type assertion (a nil-interface call). -/

mutual

/-- parser/node.go: the `EmitCode` methods of the `Expression` variants.
`PrefixExpression`/`PostfixExpression` emit nothing (TODO stubs in the
source).  `ArrayAccessExpression`'s emission is absent from the source tree
and is not modelled; no theorem depends on it. -/
def emitExpr : Expr → Emitter → Except String Emitter
  | .binary t l op r, e => do
      let e1 := e.write ("; BinaryExpression: type = " ++ t.typeID ++
        " op = " ++ op.value ++ "\n")
      let e2 ← emitExpr r e1
      let e3 := e2.write "push rax\n"
      let e4 ← emitExpr l e3
      let e5 := e4.write "pop rbx\n"
      let binOp := asmBinaryOp op
      if binOp == "add" || binOp == "sub" then
        return e5.write (binOp ++ " rax, rbx\n")
      else if binOp == "mul" || binOp == "div" then
        return e5.write (binOp ++ " rbx\n")
      else if t.typeID == "BOOL" then
        return ((e5.write "cmp rax, rbx\n").write (binOp ++ " al\n"))
      else
        return e5
  | .prefixExpression _ _ _ _, e => return e
  | .postfixExpression _ _ _ _, e => return e
  | .deref t _ r, e => do
      let e1 := e.write ("; DerefExpression rvalue type = " ++ t.typeID ++ "\n")
      let e2 ← emitExpr r e1
      return e2.write ("mov " ++ t.register ++ ", " ++ t.asmSize ++ " [rax]\n")
  | .ref t _ r, e => do
      let e1 := e.write ("; ReferenceExpression type = " ++ t.typeID ++ "\n")
      if r.isAddressableInterface then
        emitAddress r e1
      else
        Except.error "nil pointer dereference"
  | .lit t v, e =>
      let value :=
        if t.typeID == "BOOL" then
          if v.value == "true" then "1"
          else if v.value == "false" then "0"
          else v.value
        else v.value
      let e1 := e.write ("; LiteralExpression: type = " ++ t.typeID ++
        " value = " ++ value ++ "\n")
      return e1.write ("mov rax, " ++ value ++ "\n")
  | .ident t tok sym, e =>
      let e1 := e.write ("; IdentExpression " ++ tok.value ++ " type = " ++
        t.typeID ++ " offset = " ++ Nat.repr sym.offset ++ "\n")
      return e1.write ("xor rax, rax\nmov " ++ t.register ++ ", " ++
        t.asmSize ++ " [rbp - " ++ Nat.repr sym.offset ++ "]\n")
  | .group _ inner, e => emitExpr inner e
  | .arrayAccess _ _ _ _, _ =>
      Except.error "ArrayAccessExpression.EmitCode is absent from the source tree"

/-- parser/node.go: the `EmitAddressCode` methods of the
`AddressableExpression` variants.  `ReferenceExpression.EmitAddressCode` is
`panic("&&x or &(&x) is incorrect usage")`.  `GroupExpression` silently
emits nothing when its inner expression is not an `AddressableExpression`.
The remaining variants do not implement the interface; reaching them is a
nil-interface call (callers guard with the type assertion). -/
def emitAddress : Expr → Emitter → Except String Emitter
  | .deref t _ r, e => do
      let e1 := e.write ("; DerefExpression lvalue type = " ++ t.typeID ++ "\n")
      emitExpr r e1
  | .ref _ _ _, _ =>
      Except.error "&&x or &(&x) is incorrect usage"
  | .ident _ tok sym, e =>
      let e1 := e.write ("; IdentExpression " ++ tok.value ++ " lea\n")
      return e1.write ("lea rax, [rbp - " ++ Nat.repr sym.offset ++ "]\n")
  | .group _ inner, e =>
      if inner.isAddressableInterface then emitAddress inner e
      else return e
  | .arrayAccess _ _ _ _, _ =>
      Except.error "ArrayAccessExpression.EmitAddressCode is absent from the source tree"
  | _, _ => Except.error "nil pointer dereference"

end

mutual

/-- parser/node.go: the `EmitCode` methods of the `Statement` variants. -/
def emitStmt : Stmt → Emitter → Except String Emitter
  | .nilStmt, _ => Except.error "nil pointer dereference"
  | .varDecl vt id val sym, e => do
      let e1 := e.write ("; ------------------------- VarDeclStmt: " ++
        id.value ++ " type = " ++ vt.typeID ++ " -------------------------\n")
      let e2 := e1.write ("sub rsp, " ++ Nat.repr vt.size ++ "\n")
      match val with
      | some v => do
          let e3 ← emitExpr v e2
          return e3.write ("mov " ++ vt.asmSize ++ " [rbp - " ++
            Nat.repr sym.offset ++ "], " ++ vt.register ++ "\n")
      | none => return e2
  | .varDef l _ r, e => do
      let e1 := e.write "; ------------------------- VarDefinitionStmt -------------------------\n"
      if l.isAddressableInterface then do
        let e2 ← emitAddress l e1
        let e3 := e2.write "push rax\n"
        let e4 ← emitExpr r e3
        let e5 := e4.write "pop rbx\n"
        return e5.write ("mov " ++ l.exprType.asmSize ++ " [rbx], " ++
          l.exprType.register ++ "\n")
      else
        Except.error "nil pointer dereference"
  | .block stmts bs, e => do
      let e1 := e.write ("; ------------------------- BlockStmt: Size = " ++
        Nat.repr bs ++ " -------------------------")
      let e2 ← emitStmts stmts e1
      return e2.write ("add rsp, " ++ Nat.repr bs ++ "\n")
  | .ifStmt _ cond st els, e => do
      let e1 := e.write "; ------------------------- IfStmt ------------------------- \n"
      let e2 ← emitExpr cond e1
      let e3 := e2.write "cmp al, 1\n"
      let (falseLabel, e4) := e3.nextLabel
      let e5 := e4.write ("jne " ++ falseLabel ++ "\n")
      let e6 ← emitStmt st e5
      let (endLabel, e7) := e6.nextLabel
      let e8 := e7.write ("jmp " ++ endLabel ++ "\n")
      let e9 := e8.write (falseLabel ++ ":\n")
      let e10 ←
        match els with
        | some es => emitStmt es e9
        | none => pure e9
      return e10.write (endLabel ++ ":\n")
  | .assertStmt _ ex, e => do
      let e1 := e.write "; ------------------------- AssertStmt ------------------------- \n"
      let e2 ← emitExpr ex e1
      let e3 := e2.write "cmp al, 1\n"
      let (endLabel, e4) := e3.nextLabel
      let e5 := e4.write ("je " ++ endLabel ++ "\n")
      let e6 := e5.write "mov rax, 60\nmov rdi, 1\nsyscall\n"
      return e6.write (endLabel ++ ":\n")
  | .exprStmt ex, e => emitExpr ex e

/-- parser/node.go: the statement loop inside `BlockStmt.EmitCode` (also the
driver's top-level loop in cmd/clovis/main.go). -/
def emitStmts : List Stmt → Emitter → Except String Emitter
  | [], e => return e
  | s :: rest, e => do
      let e1 ← emitStmt s e
      emitStmts rest e1

end

/-- cmd/clovis/main.go: the codegen stage — a fresh emitter, every top-level
statement's `EmitCode`, then `Emitter.End`. -/
def emitProgram (stmts : List Stmt) : Except String Emitter := do
  let e ← emitStmts stmts Emitter.new
  return e.end

/-- cmd/clovis/main.go: the semantic-analysis stage — a fresh
`SemanticChecker`, then every top-level statement's `Semantics` (the loop
continues past per-statement errors; they are in the checker's list). -/
def semProgram (stmts : List Stmt) : Option (List Stmt × SemanticChecker) :=
  semStmts stmts SemanticChecker.new

/-! ## The parser — parser/parser.go

The parser's mutable state is the fixed token slice, the cursor `idx` and
the accumulated `ParserError`s (kept as token–message pairs).  Indexing is
`getD` with an `EOF`-typed default: Go would panic out of range, but every
loop guard tests `idx < len(tokens)` or `isAtEnd` first, so modelled runs
stay in bounds.  The recursion is fuel-indexed: `none` means the fuel ran
out, and a `none` at *every* fuel is a Go run that never returns. -/

/-- parser/parser.go: `ParserError` — offending token and message. -/
abbrev PErr := Token × String

/-- parser/parser.go: `Parser` minus the fixed `Stmts` result field. -/
structure ParserState where
  tokens : List Token
  idx    : Nat
  errors : List PErr
  deriving DecidableEq, Repr

namespace ParserState

/-- `p.tokens[p.idx]` (see the module note on the out-of-range default). -/
def cur (p : ParserState) : Token := p.tokens.getD p.idx default

/-- parser/parser.go: `consume` — returns the current token, advances. -/
def consume (p : ParserState) : Token × ParserState :=
  (p.cur, { p with idx := p.idx + 1 })

/-- parser/parser.go: `peek`. -/
def peek (p : ParserState) : Token := p.cur

/-- parser/parser.go: `match` (a Lean keyword, hence `matchT`). -/
def matchT (p : ParserState) (t : TokenType) : Bool := p.cur.type == t

/-- parser/parser.go: `matchAny`. -/
def matchAny (p : ParserState) (ts : List TokenType) : Bool :=
  ts.any (fun t => p.cur.type == t)

/-- parser/parser.go: `isAtEnd`. -/
def isAtEnd (p : ParserState) : Bool := p.cur.type == TokenType.EOF

/-- parser/parser.go: `addError` — the `p.Errors = append(...)` step of the
statement loops. -/
def addError (p : ParserState) (e : PErr) : ParserState :=
  { p with errors := p.errors ++ [e] }

/-- parser/parser.go: `synchronize` — the current revision's loop: *while*
the cursor is not at `EOF` and the current token `matchAny(SEMI,
CLOSE_CURLY, EOF)`, consume; then one unconditional `consume`. -/
def synchronize (p : ParserState) : ParserState :=
  if ¬ p.isAtEnd ∧ p.matchAny [.SEMI, .CLOSE_CURLY, .EOF] then
    synchronize (p.consume).2
  else
    (p.consume).2
termination_by p.tokens.length - p.idx
decreasing_by
  rename_i h
  simp only [consume]
  have hlt : p.idx < p.tokens.length := by
    by_contra hge
    have hnone : p.tokens[p.idx]? = none :=
      List.getElem?_eq_none (Nat.le_of_not_lt hge)
    have hc : p.cur = default := by
      simp [cur, List.getD, hnone]
    exact h.1 (by simp [isAtEnd, hc]; rfl)
  omega

end ParserState

/-- parser/parser.go: `getType` — token kind to semantic type. -/
def getType : TokenType → Ty
  | .UINT_8 => .uint8
  | .UINT_16 => .uint16
  | .UINT_32 => .uint32
  | .UINT_64 => .uint64
  | .UINT_64_LIT => .uintLiteral
  | .BOOL => .bool
  | .TRUE_LIT => .bool
  | .FALSE_LIT => .bool
  | _ => .undefined

/-- parser/parser.go: `parseWhileStmt` — an empty body: touches nothing. -/
def parseWhileStmt (p : ParserState) : ParserState := p

/-- parser/parser.go: `parseForStmt` — an empty body: touches nothing. -/
def parseForStmt (p : ParserState) : ParserState := p

mutual

/-- parser/parser.go: `parseStatements` — the top-level statement loop.
`stmts` is the local accumulator; a statement parsed without error is
appended even when it is Go `nil` (the `while`/`for` branches), which is
`Stmt.nilStmt` here. -/
def parseStatementsF : Nat → ParserState → List Stmt →
    Option (List Stmt × ParserState)
  | 0, _, _ => none
  | n + 1, p, stmts =>
      if p.idx < p.tokens.length ∧ ¬ p.isAtEnd then
        match parseStatementF n p with
        | none => none
        | some ((s?, none), p1) =>
            parseStatementsF n p1 (stmts ++ [s?.getD .nilStmt])
        | some ((_, some e), p1) =>
            parseStatementsF n ((p1.addError e).synchronize) stmts
      else
        some (stmts, p)

/-- parser/parser.go: `parseStatement` — the dispatch on the current token.
The `while`/`for` branches call their empty parse stubs and *fall through*
to `return nil, nil`: no token is consumed and no error is reported. -/
def parseStatementF : Nat → ParserState →
    Option ((Option Stmt × Option PErr) × ParserState)
  | 0, _ => none
  | n + 1, p =>
      if p.matchAny [.UINT_64, .UINT_32, .UINT_16, .UINT_8, .BOOL] then
        match parseVarDeclF n p with
        | none => none
        | some (.ok s, p1) => some ((some s, none), p1)
        | some (.error e, p1) => some ((none, some e), p1)
      else if p.matchAny [.STAR, .IDENT, .OPEN_PAREN] then
        match parseVarDefinitionF n p with
        | none => none
        | some (.ok s, p1) => some ((some s, none), p1)
        | some (.error e, p1) => some ((none, some e), p1)
      else if p.matchT .OPEN_CURLY then
        match parseBlockStmtF n p with
        | none => none
        | some (.ok s, p1) => some ((some s, none), p1)
        | some (.error e, p1) => some ((none, some e), p1)
      else if p.matchT .IF then
        match parseIfStmtF n p with
        | none => none
        | some (.ok s, p1) => some ((some s, none), p1)
        | some (.error e, p1) => some ((none, some e), p1)
      else if p.matchT .WHILE then
        some ((none, none), parseWhileStmt p)
      else if p.matchT .FOR then
        some ((none, none), parseForStmt p)
      else if p.matchT .ASSERT then
        match parseAssertF n p with
        | none => none
        | some (.ok s, p1) => some ((some s, none), p1)
        | some (.error e, p1) => some ((none, some e), p1)
      else
        match parseExpressionStmtF n p with
        | none => none
        | some (.ok s, p1) => some ((some s, none), p1)
        | some (.error e, p1) => some ((none, some e), p1)

/-- parser/parser.go: the `for p.matchAny(STAR, OPEN_BRACKET)` decorator
loop of `parseVarDecl`: each `*` wraps the type in `Ptr`, each `[N]` wraps
it in `Array` (with `strconv.Atoi`'s error ignored, as in the source). -/
def parseVarDeclDecorF : Nat → Ty → ParserState →
    Option (Except PErr Ty × ParserState)
  | 0, _, _ => none
  | n + 1, ty, p =>
      if p.matchT .STAR then
        parseVarDeclDecorF n (.ptr ty) (p.consume).2
      else if p.matchT .OPEN_BRACKET then
        let p1 := (p.consume).2
        if ¬ p1.matchT .UINT_64_LIT then
          let (bad, p2) := p1.consume
          some (.error (p1.peek,
            "Expected size specifier for array declaration but received "
              ++ bad.value), p2)
        else
          let (sizeToken, p2) := p1.consume
          if ¬ p2.matchT .CLOSE_BRACKET then
            let (bad, p3) := p2.consume
            some (.error (p2.peek,
              "Expected close bracket after array declaration but received "
                ++ bad.value), p3)
          else
            let p3 := (p2.consume).2
            let arrLength := (sizeToken.value.toNat?).getD 0
            parseVarDeclDecorF n (.array ty arrLength) p3
      else
        some (.ok ty, p)

/-- parser/parser.go: `parseVarDecl` — type keyword, decorators, identifier,
optional initializer, semicolon.  The error messages that call
`p.consume()` inside their `Sprintf` consume the offending token, after the
error's own token was read by `p.peek()` (Go evaluates the arguments in
that order). -/
def parseVarDeclF : Nat → ParserState → Option (Except PErr Stmt × ParserState)
  | 0, _ => none
  | n + 1, p => do
      let (typeToken, p1) := p.consume
      match parseVarDeclDecorF n (getType typeToken.type) p1 with
      | none => none
      | some (.error e, p2) => some (.error e, p2)
      | some (.ok ty, p2) =>
        if ¬ p2.matchT .IDENT then
          let (bad, p3) := p2.consume
          some (.error (p2.peek,
            "Expected an identifer after type defintion but received "
              ++ bad.value), p3)
        else
          let (identTok, p3) := p2.consume
          let valRes : Option (Except PErr (Option Expr) × ParserState) :=
            if p3.matchT .ASSIGN then
              match parseExpressionF n (p3.consume).2 with
              | none => none
              | some (.error e, p4) => some (.error e, p4)
              | some (.ok v, p4) => some (.ok (some v), p4)
            else
              some (.ok none, p3)
          match valRes with
          | none => none
          | some (.error e, p4) => some (.error e, p4)
          | some (.ok val, p4) =>
            if ¬ p4.matchT .SEMI then
              let (bad, p5) := p4.consume
              some (.error (p4.peek,
                "Expected semicolon after variable declaration but received "
                  ++ bad.value), p5)
            else
              some (.ok (.varDecl ty identTok val zeroSymbol), (p4.consume).2)

/-- parser/parser.go: `parseVarDefinition` — l-value expression, `=`,
r-value expression, `;`. -/
def parseVarDefinitionF : Nat → ParserState →
    Option (Except PErr Stmt × ParserState)
  | 0, _ => none
  | n + 1, p =>
      match parseExpressionF n p with
      | none => none
      | some (.error e, p1) => some (.error e, p1)
      | some (.ok left, p1) =>
        if ¬ p1.matchT .ASSIGN then
          some (.error (p1.peek,
            "Expected assignment operator but received " ++ p1.peek.value), p1)
        else
          let (opTok, p2) := p1.consume
          match parseExpressionF n p2 with
          | none => none
          | some (.error e, p3) => some (.error e, p3)
          | some (.ok right, p3) =>
            if ¬ p3.matchT .SEMI then
              some (.error (p3.peek,
                "Expected semicolon at the end of statement but received "
                  ++ p3.peek.value), p3)
            else
              some (.ok (.varDef left opTok right), (p3.consume).2)

/-- parser/parser.go: the statement loop inside `parseBlockStmt` — like the
top-level loop but also stopping at `}`. -/
def parseBlockLoopF : Nat → ParserState → List Stmt →
    Option (List Stmt × ParserState)
  | 0, _, _ => none
  | n + 1, p, stmts =>
      if p.idx < p.tokens.length ∧ ¬ p.isAtEnd ∧ ¬ p.matchT .CLOSE_CURLY then
        match parseStatementF n p with
        | none => none
        | some ((s?, none), p1) =>
            parseBlockLoopF n p1 (stmts ++ [s?.getD .nilStmt])
        | some ((_, some e), p1) =>
            parseBlockLoopF n ((p1.addError e).synchronize) stmts
      else
        some (stmts, p)

/-- parser/parser.go: `parseBlockStmt` — `{`, statements with per-statement
recovery, `}`.  The `BlockStmt` is built with its zero `BlockSize`. -/
def parseBlockStmtF : Nat → ParserState → Option (Except PErr Stmt × ParserState)
  | 0, _ => none
  | n + 1, p =>
      let p1 := (p.consume).2
      match parseBlockLoopF n p1 [] with
      | none => none
      | some (stmts, p2) =>
        if ¬ p2.matchT .CLOSE_CURLY then
          some (.error (p2.peek,
            "Expected close curly but found " ++ p2.peek.value), p2)
        else
          some (.ok (.block stmts 0), (p2.consume).2)

/-- parser/parser.go: `parseIfStmt` — `if`, condition, statement, optional
`else` statement.  The parsed sub-statements may be Go `nil`
(`Stmt.nilStmt`). -/
def parseIfStmtF : Nat → ParserState → Option (Except PErr Stmt × ParserState)
  | 0, _ => none
  | n + 1, p =>
      let (ifTok, p1) := p.consume
      match parseExpressionF n p1 with
      | none => none
      | some (.error e, p2) => some (.error e, p2)
      | some (.ok cond, p2) =>
        match parseStatementF n p2 with
        | none => none
        | some ((_, some e), p3) => some (.error e, p3)
        | some ((st?, none), p3) =>
          if p3.matchT .ELSE then
            match parseStatementF n (p3.consume).2 with
            | none => none
            | some ((_, some e), p4) => some (.error e, p4)
            | some ((es?, none), p4) =>
                some (.ok (.ifStmt ifTok cond (st?.getD .nilStmt)
                  (some (es?.getD .nilStmt))), p4)
          else
            some (.ok (.ifStmt ifTok cond (st?.getD .nilStmt) none), p3)

/-- parser/parser.go: `parseAssert` — `assert`, expression, `;`. -/
def parseAssertF : Nat → ParserState → Option (Except PErr Stmt × ParserState)
  | 0, _ => none
  | n + 1, p =>
      let (assertTok, p1) := p.consume
      match parseExpressionF n p1 with
      | none => none
      | some (.error e, p2) =>
          some (.error (p2.peek, "At assertion " ++ e.2), p2)
      | some (.ok ex, p2) =>
        if ¬ p2.matchT .SEMI then
          some (.error (p2.peek, "Expected semicolon found " ++ p2.peek.value), p2)
        else
          some (.ok (.assertStmt assertTok ex), (p2.consume).2)

/-- parser/parser.go: `parseExpressionStmt` — expression, `;`. -/
def parseExpressionStmtF : Nat → ParserState →
    Option (Except PErr Stmt × ParserState)
  | 0, _ => none
  | n + 1, p =>
      match parseExpressionF n p with
      | none => none
      | some (.error e, p1) => some (.error e, p1)
      | some (.ok ex, p1) =>
        if ¬ p1.matchT .SEMI then
          some (.error (p1.peek, "Expected semicolon found " ++ p1.peek.value), p1)
        else
          some (.ok (.exprStmt ex), (p1.consume).2)

/-- parser/parser.go: `parseExpression` — delegates to `parseEquality`. -/
def parseExpressionF : Nat → ParserState → Option (Except PErr Expr × ParserState)
  | 0, _ => none
  | n + 1, p => parseEqualityF n p

/-- parser/parser.go: `parseEquality` — one (non-iterating) `if` over
`==`/`!=`, as in the source. -/
def parseEqualityF : Nat → ParserState → Option (Except PErr Expr × ParserState)
  | 0, _ => none
  | n + 1, p =>
      match parseComparisonF n p with
      | none => none
      | some (.error e, p1) => some (.error e, p1)
      | some (.ok left, p1) =>
        if p1.matchAny [.EQ, .NEQ] then
          let (op, p2) := p1.consume
          match parseComparisonF n p2 with
          | none => none
          | some (.error e, p3) => some (.error e, p3)
          | some (.ok right, p3) =>
              some (.ok (.binary .undefined left op right), p3)
        else
          some (.ok left, p1)

/-- parser/parser.go: the iterating `for` loop of `parseComparison`. -/
def parseComparisonLoopF : Nat → Expr → ParserState →
    Option (Except PErr Expr × ParserState)
  | 0, _, _ => none
  | n + 1, left, p =>
      if p.matchAny [.LESS_THAN, .LESS_EQ_THAN, .GREATER_THAN, .GREATER_EQ_THAN] then
        let (op, p1) := p.consume
        match parseTermF n p1 with
        | none => none
        | some (.error e, p2) => some (.error e, p2)
        | some (.ok right, p2) =>
            parseComparisonLoopF n (.binary .undefined left op right) p2
      else
        some (.ok left, p)

/-- parser/parser.go: `parseComparison`. -/
def parseComparisonF : Nat → ParserState → Option (Except PErr Expr × ParserState)
  | 0, _ => none
  | n + 1, p =>
      match parseTermF n p with
      | none => none
      | some (.error e, p1) => some (.error e, p1)
      | some (.ok left, p1) => parseComparisonLoopF n left p1

/-- parser/parser.go: the iterating `for` loop of `parseTerm`. -/
def parseTermLoopF : Nat → Expr → ParserState →
    Option (Except PErr Expr × ParserState)
  | 0, _, _ => none
  | n + 1, left, p =>
      if p.matchAny [.PLUS, .MINUS] then
        let (op, p1) := p.consume
        match parseFactorF n p1 with
        | none => none
        | some (.error e, p2) => some (.error e, p2)
        | some (.ok right, p2) =>
            parseTermLoopF n (.binary .undefined left op right) p2
      else
        some (.ok left, p)

/-- parser/parser.go: `parseTerm`. -/
def parseTermF : Nat → ParserState → Option (Except PErr Expr × ParserState)
  | 0, _ => none
  | n + 1, p =>
      match parseFactorF n p with
      | none => none
      | some (.error e, p1) => some (.error e, p1)
      | some (.ok left, p1) => parseTermLoopF n left p1

/-- parser/parser.go: the iterating `for` loop of `parseFactor`. -/
def parseFactorLoopF : Nat → Expr → ParserState →
    Option (Except PErr Expr × ParserState)
  | 0, _, _ => none
  | n + 1, left, p =>
      if p.matchAny [.STAR, .F_SLASH] then
        let (op, p1) := p.consume
        match parsePrefixLevelF n p1 with
        | none => none
        | some (.error e, p2) => some (.error e, p2)
        | some (.ok right, p2) =>
            parseFactorLoopF n (.binary .undefined left op right) p2
      else
        some (.ok left, p)

/-- parser/parser.go: `parseFactor`. -/
def parseFactorF : Nat → ParserState → Option (Except PErr Expr × ParserState)
  | 0, _ => none
  | n + 1, p =>
      match parsePrefixLevelF n p with
      | none => none
      | some (.error e, p1) => some (.error e, p1)
      | some (.ok left, p1) => parseFactorLoopF n left p1

/-- parser/parser.go: the unary-operator level of the grammar — `*` builds a
`DerefExpression`, `&` a `ReferenceExpression` (both with their zero/nil
`Type`), `!`/`-` a `PrefixExpression`; otherwise the postfix level. -/
def parsePrefixLevelF : Nat → ParserState → Option (Except PErr Expr × ParserState)
  | 0, _ => none
  | n + 1, p =>
      if p.matchT .STAR then
        let (op, p1) := p.consume
        match parsePrefixLevelF n p1 with
        | none => none
        | some (.error e, p2) => some (.error e, p2)
        | some (.ok right, p2) => some (.ok (.deref .undefined op right), p2)
      else if p.matchT .AMPERSAND then
        let (op, p1) := p.consume
        match parsePrefixLevelF n p1 with
        | none => none
        | some (.error e, p2) => some (.error e, p2)
        | some (.ok right, p2) => some (.ok (.ref .undefined op right), p2)
      else if p.matchAny [.NOT, .MINUS] then
        let (op, p1) := p.consume
        match parsePrefixLevelF n p1 with
        | none => none
        | some (.error e, p2) => some (.error e, p2)
        | some (.ok right, p2) =>
            some (.ok (.prefixExpression .undefined op right false), p2)
      else
        parsePostfixLevelF n p

/-- parser/parser.go: the `for p.match(OPEN_BRACKET)` loop of
`parsePostfix` — each iteration parses one array access and installs the
previous expression as its `Left` (the source builds the node with a nil
`Left` in `parseArrayAccess` and assigns it here). -/
def parsePostfixLoopF : Nat → Expr → ParserState →
    Option (Except PErr Expr × ParserState)
  | 0, _, _ => none
  | n + 1, left, p =>
      if p.matchT .OPEN_BRACKET then
        match parseArrayAccessF n p with
        | none => none
        | some (.error e, p1) => some (.error e, p1)
        | some (.ok (openBracket, indexExpr), p1) =>
            parsePostfixLoopF n
              (.arrayAccess .undefined left indexExpr openBracket) p1
      else
        some (.ok left, p)

/-- parser/parser.go: `parsePostfix` — primary, then array accesses
(`++`/`--` are a TODO in the source). -/
def parsePostfixLevelF : Nat → ParserState → Option (Except PErr Expr × ParserState)
  | 0, _ => none
  | n + 1, p =>
      match parsePrimaryF n p with
      | none => none
      | some (.error e, p1) => some (.error e, p1)
      | some (.ok left, p1) => parsePostfixLoopF n left p1

/-- parser/parser.go: `parseArrayAccess` — `[`, index expression, `]`;
returns the open-bracket token and the index expression (the node's `Left`
is installed by the postfix loop). -/
def parseArrayAccessF : Nat → ParserState →
    Option (Except PErr (Token × Expr) × ParserState)
  | 0, _ => none
  | n + 1, p =>
      let (openBracket, p1) := p.consume
      match parseExpressionF n p1 with
      | none => none
      | some (.error e, p2) => some (.error e, p2)
      | some (.ok indexExpr, p2) =>
        if ¬ p2.matchT .CLOSE_BRACKET then
          some (.error (p2.peek,
            "Expected close bracket after array access but received "
              ++ p2.peek.value), p2)
        else
          some (.ok (openBracket, indexExpr), (p2.consume).2)

/-- parser/parser.go: `parsePrimary` — literal, identifier, group, or the
"Invalid expression" error (without consuming). -/
def parsePrimaryF : Nat → ParserState → Option (Except PErr Expr × ParserState)
  | 0, _ => none
  | n + 1, p =>
      if p.matchAny [.UINT_64_LIT, .TRUE_LIT, .FALSE_LIT] then
        let t := getType p.peek.type
        let (v, p1) := p.consume
        some (.ok (.lit t v), p1)
      else if p.matchT .IDENT then
        let (tok, p1) := p.consume
        some (.ok (.ident .undefined tok zeroSymbol), p1)
      else if p.matchT .OPEN_PAREN then
        parseGroupExprF n p
      else
        some (.error (p.peek, "Invalid expression"), p)

/-- parser/parser.go: `parseGroupExpr` — `(`, expression, `)`; the
close-paren error consumes and reports the consumed token. -/
def parseGroupExprF : Nat → ParserState → Option (Except PErr Expr × ParserState)
  | 0, _ => none
  | n + 1, p =>
      let p1 := (p.consume).2
      match parseExpressionF n p1 with
      | none => none
      | some (.error e, p2) => some (.error e, p2)
      | some (.ok expr, p2) =>
        if ¬ p2.matchT .CLOSE_PAREN then
          let (bad, p3) := p2.consume
          some (.error (bad, "Expected close paren after group expression"), p3)
        else
          some (.ok (.group .undefined expr), (p2.consume).2)

end

/-- parser/parser.go: `Parse`/`parseProgram` — the statement loop from a
fresh parser over the given tokens; `none` at every fuel is a run of
`Parser.Parse` that never returns. -/
def parseF (fuel : Nat) (tokens : List Token) :
    Option (List Stmt × ParserState) :=
  parseStatementsF fuel ⟨tokens, 0, []⟩ []

/-! ## Spec-modelled recovery, checker traces, and concrete programs -/

/-- Modelled from the spec: §4.1 **Error recovery** (`synchronize`), the
behaviour the code's `ParserState.synchronize` is compared against —
"discard tokens until a statement terminator (`;`), a scope terminator
(`}`), or `EOF` is reached, then consume that sentinel."  Returns the
cursor position at which parsing resumes. -/
def synchronizeSpecIdx (tokens : List Token) (idx : Nat) : Nat :=
  if h : idx < tokens.length then
    let t := tokens.get ⟨idx, h⟩
    if t.type == .SEMI || t.type == .CLOSE_CURLY || t.type == .EOF then
      idx + 1
    else
      synchronizeSpecIdx tokens (idx + 1)
  else idx
termination_by tokens.length - idx

/-- One call into the checker's scope interface, for stating
whole-compilation invariants over any interleaving of declarations and
scope entries/exits. -/
inductive CheckerOp where
  | pushSym (ident : String) (ty : Ty) (tok : Token)
  | pushBlock
  | popBlock
  deriving DecidableEq, Repr

/-- The checker transition of one `CheckerOp`. -/
def runOp : CheckerOp → SemanticChecker → SemanticChecker
  | .pushSym id t tok, c => (c.pushSymbol id t tok).1
  | .pushBlock, c => c.pushBlock
  | .popBlock, c => (c.popBlock).1

/-- The checker after a sequence of `CheckerOp`s. -/
def runOps : List CheckerOp → SemanticChecker → SemanticChecker
  | [], c => c
  | op :: rest, c => runOps rest (runOp op c)

/-- `runOps` with a ghost log of every symbol a `pushSym` actually declared
(the head of the symbol table right after a successful push) — including
symbols whose scopes are later popped, which the checker itself forgets. -/
def runOpsLog : List CheckerOp → SemanticChecker → SemanticChecker × List Symbol
  | [], c => (c, [])
  | .pushSym id t tok :: rest, c =>
      let (c2, err) := c.pushSymbol id t tok
      let (cf, log) := runOpsLog rest c2
      (cf, (match err with
            | none => c2.symbolTable.take 1
            | some _ => []) ++ log)
  | .pushBlock :: rest, c => runOpsLog rest c.pushBlock
  | .popBlock :: rest, c => runOpsLog rest (c.popBlock).1

/-- A token at line 1, column 1 (positions are irrelevant to the claims). -/
def mkToken (t : TokenType) (v : String) : Token := ⟨t, v, 1, 1⟩

/-- The token stream of the two-statement program
`uint64 x = 0; uint64** q = &&x;`. -/
def c1Tokens : List Token :=
  [ mkToken .UINT_64 "uint64", mkToken .IDENT "x", mkToken .ASSIGN "=",
    mkToken .UINT_64_LIT "0", mkToken .SEMI ";",
    mkToken .UINT_64 "uint64", mkToken .STAR "*", mkToken .STAR "*",
    mkToken .IDENT "q", mkToken .ASSIGN "=",
    mkToken .AMPERSAND "&", mkToken .AMPERSAND "&", mkToken .IDENT "x",
    mkToken .SEMI ";", mkToken .EOF "" ]

/-- The AST `parseF` produces for `c1Tokens`: two declarations, symbols
still zeroed and expression types still `undefined` (filled in later by
semantic analysis). -/
def c1AST : List Stmt :=
  [ Stmt.varDecl Ty.uint64 (mkToken .IDENT "x")
      (some (Expr.lit Ty.uintLiteral (mkToken .UINT_64_LIT "0"))) zeroSymbol,
    Stmt.varDecl (Ty.ptr (Ty.ptr Ty.uint64)) (mkToken .IDENT "q")
      (some (Expr.ref Ty.undefined (mkToken .AMPERSAND "&")
        (Expr.ref Ty.undefined (mkToken .AMPERSAND "&")
          (Expr.ident Ty.undefined (mkToken .IDENT "x") zeroSymbol)))) zeroSymbol ]

/-- The symbol the checker records for `x` in the C1 program. -/
def c1SymX : Symbol := ⟨"x", Ty.uint64, 8, 8, mkToken .IDENT "x"⟩

/-- The symbol the checker records for `q` in the C1 program. -/
def c1SymQ : Symbol := ⟨"q", Ty.ptr (Ty.ptr Ty.uint64), 16, 8, mkToken .IDENT "q"⟩

/-- The C1 AST after semantic analysis: expression types resolved and
symbols attached. -/
def c1Sem : List Stmt :=
  [ Stmt.varDecl Ty.uint64 (mkToken .IDENT "x")
      (some (Expr.lit Ty.uintLiteral (mkToken .UINT_64_LIT "0"))) c1SymX,
    Stmt.varDecl (Ty.ptr (Ty.ptr Ty.uint64)) (mkToken .IDENT "q")
      (some (Expr.ref (Ty.ptr (Ty.ptr Ty.uint64)) (mkToken .AMPERSAND "&")
        (Expr.ref (Ty.ptr Ty.uint64) (mkToken .AMPERSAND "&")
          (Expr.ident Ty.uint64 (mkToken .IDENT "x") c1SymX)))) c1SymQ ]

/-- The checker state after semantic analysis of the C1 program: no
errors, both symbols live, `nextAddr = 16`. -/
def c1Chk : SemanticChecker := ⟨[], [c1SymQ, c1SymX], [0], 16⟩

/-- The token stream of the program `while` — a statement whose leading
token is the reserved `while` keyword, then `EOF`. -/
def whileTokens : List Token := [mkToken .WHILE "while", mkToken .EOF ""]

/-- The frame a statement's semantic analysis leaves on the checker: the
symbol table only grew at the top, the block-index stack is exactly
restored, and `nextAddr` did not shrink. -/
def ChkFrame (c c2 : SemanticChecker) : Prop :=
  (∃ new, c2.symbolTable = new ++ c.symbolTable) ∧
  c2.blockIndexTable = c.blockIndexTable ∧
  c.nextAddr ≤ c2.nextAddr

/-- The frame code emission leaves on the emitter: text is only appended
and the label counter never decreases. -/
def EmFrame (em out : Emitter) : Prop :=
  (∃ Δ, out.code = em.code ++ Δ) ∧ em.labelCount ≤ out.labelCount

/-- The statements of the C3 witness block:
`{ uint8 a; { uint64 y; } uint8 b; }` — the inner block's `uint64` must not
count towards the outer block's size. -/
def c3WitnessStmts : List Stmt :=
  [ Stmt.varDecl Ty.uint8 (mkToken .IDENT "a") none zeroSymbol,
    Stmt.block [Stmt.varDecl Ty.uint64 (mkToken .IDENT "y") none zeroSymbol] 0,
    Stmt.varDecl Ty.uint8 (mkToken .IDENT "b") none zeroSymbol ]

/-- The full result of analyzing the C3 witness block from a fresh
checker: the decorated block (outer `BlockSize = 2`, inner `= 8`), the
restored checker (empty table, global mark, `nextAddr = 10`), no error. -/
def c3Out : Stmt × SemanticChecker × Option String :=
  ( Stmt.block
      [ Stmt.varDecl Ty.uint8 (mkToken .IDENT "a") none
          ⟨"a", Ty.uint8, 1, 1, mkToken .IDENT "a"⟩,
        Stmt.block
          [ Stmt.varDecl Ty.uint64 (mkToken .IDENT "y") none
              ⟨"y", Ty.uint64, 9, 8, mkToken .IDENT "y"⟩ ] 8,
        Stmt.varDecl Ty.uint8 (mkToken .IDENT "b") none
          ⟨"b", Ty.uint8, 10, 1, mkToken .IDENT "b"⟩ ] 2,
    ⟨[], [], [0], 10⟩, none )

/-- The `IfStmt` comment line `IfStmt.EmitCode` writes first. -/
def ifHeader : String :=
  "; ------------------------- IfStmt ------------------------- \n"

/-- The emitter state `IfStmt.EmitCode` hands to the then-branch: after the
condition left `e2`, write `cmp al, 1`, reserve the false label
(`NextLabel`), and write the `jne` to it. -/
def jneStep (e2 : Emitter) : Emitter :=
  (e2.write "cmp al, 1\n").nextLabel.2.write
    ("jne " ++ Emitter.labelName (e2.labelCount + 1) ++ "\n")

/-- The emitter state `IfStmt.EmitCode` hands to the else-branch: after the
then-branch left `e6`, reserve the end label, write the `jmp` to it, and
write the false label line. -/
def elseEntry (e2 e6 : Emitter) : Emitter :=
  (e6.nextLabel.2.write
    ("jmp " ++ Emitter.labelName (e6.labelCount + 1) ++ "\n")).write
    (Emitter.labelName (e2.labelCount + 1) ++ ":\n")

/-- The C8 witness statement: `if true { 1; } else { 2; }` as single
expression-statement branches. -/
def c8Stmt : Stmt :=
  Stmt.ifStmt (mkToken .IF "if")
    (Expr.lit Ty.bool (mkToken .TRUE_LIT "true"))
    (Stmt.exprStmt (Expr.lit Ty.uintLiteral (mkToken .UINT_64_LIT "1")))
    (some (Stmt.exprStmt (Expr.lit Ty.uintLiteral (mkToken .UINT_64_LIT "2"))))

/-- The emitter `emitStmt c8Stmt Emitter.new` produces: condition, `cmp`,
`jne .L01`, then-branch, `jmp .L02`, `.L01:`, else-branch, `.L02:`. -/
def c8Out : Emitter :=
  ⟨[ "section .text\n", "global _start\n\n", "_start:\n", "mov rbp, rsp\n\n",
     "; ------------------------- IfStmt ------------------------- \n",
     "; LiteralExpression: type = BOOL value = 1\n", "mov rax, 1\n",
     "cmp al, 1\n", "jne .L01\n",
     "; LiteralExpression: type = UINT_LIT value = 1\n", "mov rax, 1\n",
     "jmp .L02\n", ".L01:\n",
     "; LiteralExpression: type = UINT_LIT value = 2\n", "mov rax, 2\n",
     ".L02:\n" ], 2⟩

/-! # Theorems -/

/-! ## Shared lemmas -/

/-- `Expr.isAddressableFuel` agrees with its limit `Expr.isAddressableOpt`
at every fuel: `group` is `none` at every fuel, every other variant is
fuel-independent. -/
theorem isAddressableFuel_eq (n : Nat) (e : Expr) :
    Expr.isAddressableFuel n e = Expr.isAddressableOpt e := by
  induction n with
  | zero => cases e <;> rfl
  | succ n ih =>
    cases e with
    | group t e2 => simp only [Expr.isAddressableFuel]; exact ih
    | _ => rfl

/-! ## C9 — `GroupExpression.IsAddressable` -/

/-- **C9** (the code, against the claim): `GroupExpression.IsAddressable`
is `return exp.IsAddressable()` — it recurses on the *group node itself*,
not on the inner expression, so it never returns: at every fuel the
answer is still `none`, for every inner expression.  The claim (and spec
§4.2/§9) say it should return the inner expression's addressability. -/
theorem c9_group_isAddressable_diverges (n : Nat) (t : Ty) (inner : Expr) :
    Expr.isAddressableFuel n (Expr.group t inner) = none := by
  induction n with
  | zero => rfl
  | succ n ih => simpa only [Expr.isAddressableFuel] using ih

/-! ## C5 — `Equals` between fixed-width types and `UintLiteral` -/

/-- **C5** counterexample: the claim says `UintLiteral{}.Equals(Uint32{})`
returns true; it returns false (`UintLiteral.Equals` accepts only
`UINT_LIT` and `UINT64`). -/
theorem c5_counterexample : Ty.equals Ty.uintLiteral Ty.uint32 = false := by
  decide

/-- **C5** (amended): `T.Equals(UintLiteral{})` is true for every
fixed-width unsigned type `T`, but the literal's own `Equals` is
bidirectional only with `Uint64`: `UintLiteral{}.Equals(T)` is true for
`T = Uint64` and false for `Uint32`, `Uint16`, `Uint8`. -/
theorem c5_literal_equality_amended :
    (Ty.equals Ty.uint64 Ty.uintLiteral = true ∧
     Ty.equals Ty.uint32 Ty.uintLiteral = true ∧
     Ty.equals Ty.uint16 Ty.uintLiteral = true ∧
     Ty.equals Ty.uint8 Ty.uintLiteral = true) ∧
    Ty.equals Ty.uintLiteral Ty.uint64 = true ∧
    (Ty.equals Ty.uintLiteral Ty.uint32 = false ∧
     Ty.equals Ty.uintLiteral Ty.uint16 = false ∧
     Ty.equals Ty.uintLiteral Ty.uint8 = false) := by
  decide

/-! ## C6 — operator legality commutes under literal mixing -/

/-- **C6**: for every fixed-width unsigned type `T` and arithmetic operator
`op`, `T.CanUseOperator(op, UintLiteral{})` and
`UintLiteral{}.CanUseOperator(op, T)` both return `(true, T)`; for every
comparison operator both directions return `(true, Bool)`. -/
theorem c6_operator_literal_mixing (t : Ty) (op : String)
    (ht : t ∈ [Ty.uint64, Ty.uint32, Ty.uint16, Ty.uint8]) :
    (op ∈ ["+", "-", "*", "/"] →
      Ty.canUseOperator t op Ty.uintLiteral = (true, t) ∧
      Ty.canUseOperator Ty.uintLiteral op t = (true, t)) ∧
    (op ∈ ["==", "!=", "<", "<=", ">", ">="] →
      Ty.canUseOperator t op Ty.uintLiteral = (true, Ty.bool) ∧
      Ty.canUseOperator Ty.uintLiteral op t = (true, Ty.bool)) := by
  fin_cases ht <;>
    refine ⟨fun hop => ?_, fun hop => ?_⟩ <;>
    fin_cases hop <;> decide

/-- **C6** witness: the theorem applied at `Uint32`/`+` and `Uint8`/`<`. -/
theorem c6_operator_literal_mixing_witness :
    Ty.canUseOperator Ty.uint32 "+" Ty.uintLiteral = (true, Ty.uint32) ∧
    Ty.canUseOperator Ty.uintLiteral "<" Ty.uint8 = (true, Ty.bool) :=
  ⟨((c6_operator_literal_mixing Ty.uint32 "+" (by decide)).1 (by decide)).1,
   ((c6_operator_literal_mixing Ty.uint8 "<" (by decide)).2 (by decide)).2⟩

/-! ## C2 — `synchronize` -/

/-- **C2** (the code, against the claim): at a recovery point whose current
token is `+` (not a sentinel) in the stream `+ ; EOF`, the code's
`synchronize` consumes exactly one token and resumes *at* the `;`
(index 1), while the spec's recovery resumes one past the first sentinel
(index 2).  Conversely, started *on* a `;` in `; 1 ; EOF` the code
consumes the sentinel *and* the following token (resumes at index 2)
where the spec consumes just the sentinel (index 1).  The loop guard
skips only *while* the cursor is on `;`/`}`/`EOF` instead of *until*. -/
theorem c2_synchronize_divergence :
    (ParserState.synchronize
        ⟨[mkToken .PLUS "+", mkToken .SEMI ";", mkToken .EOF ""], 0, []⟩).idx = 1 ∧
    synchronizeSpecIdx [mkToken .PLUS "+", mkToken .SEMI ";", mkToken .EOF ""] 0 = 2 ∧
    (ParserState.synchronize
        ⟨[mkToken .SEMI ";", mkToken .UINT_64_LIT "1", mkToken .SEMI ";",
          mkToken .EOF ""], 0, []⟩).idx = 2 ∧
    synchronizeSpecIdx [mkToken .SEMI ";", mkToken .UINT_64_LIT "1",
      mkToken .SEMI ";", mkToken .EOF ""] 0 = 1 := by
  refine ⟨?_, ?_, ?_, ?_⟩ <;>
    simp [ParserState.synchronize, synchronizeSpecIdx, ParserState.isAtEnd,
      ParserState.matchAny, ParserState.cur, ParserState.consume, mkToken]

/-! ## C7 — `Parser.Parse` termination -/

/-- On a `while` token, `parseStatement` dispatches to the empty
`parseWhileStmt` stub, falls through to `return nil, nil`, and leaves the
parser state untouched — whatever fuel remains. -/
theorem parseStatementF_while_fixpoint (m : Nat) :
    parseStatementF (m + 1) ⟨whileTokens, 0, []⟩ =
      some ((none, none), ⟨whileTokens, 0, []⟩) := by
  simp [parseStatementF, ParserState.matchAny, ParserState.matchT,
    ParserState.cur, whileTokens, mkToken, parseWhileStmt]

/-- **C7** (the code, against the claim): `Parser.Parse` does *not*
terminate on the token stream `while EOF`.  `parseStatements` sees a
non-`EOF` token, calls `parseStatement`, which neither consumes the
`while` token nor reports an error, and loops on the identical cursor
forever: the run is `none` at every fuel. -/
theorem c7_parse_never_returns (fuel : Nat) : parseF fuel whileTokens = none := by
  suffices h : ∀ n acc, parseStatementsF n ⟨whileTokens, 0, []⟩ acc = none by
    exact h fuel []
  intro n
  induction n with
  | zero => intro acc; rfl
  | succ n ih =>
      intro acc
      have hg : ((⟨whileTokens, 0, []⟩ : ParserState).idx <
          (⟨whileTokens, 0, []⟩ : ParserState).tokens.length ∧
          ¬ (⟨whileTokens, 0, []⟩ : ParserState).isAtEnd = true) := by decide
      cases n with
      | zero => rfl
      | succ m =>
          rw [parseStatementsF.eq_2, if_pos hg, parseStatementF_while_fixpoint m]
          exact ih _

/-! ## C1 — the `&&x` panic is reachable past a clean semantic pass -/

/-- **C1** (the code, against the claim): the program
`uint64 x = 0; uint64** q = &&x;` parses without error, passes semantic
analysis with an *empty* error list (`ReferenceExpression.IsAddressable`
returns true, so `&x` is accepted as the operand of the outer `&`), and
code emission then reaches `ReferenceExpression.EmitAddressCode` — the
`panic("&&x or &(&x) is incorrect usage")` branch the claim says is
unreachable post-semantic. -/
theorem c1_reference_emitAddress_reachable :
    ∃ (stmts : List Stmt) (p : ParserState)
      (stmts2 : List Stmt) (c : SemanticChecker),
      parseF 64 c1Tokens = some (stmts, p) ∧ p.errors = [] ∧
      semProgram stmts = some (stmts2, c) ∧ c.errors = [] ∧
      emitProgram stmts2 = .error "&&x or &(&x) is incorrect usage" := by
  refine ⟨c1AST, ⟨c1Tokens, 14, []⟩, c1Sem, c1Chk, rfl, rfl, ?_, rfl, rfl⟩
  simp [semProgram, c1AST, c1Sem, c1Chk, c1SymX, c1SymQ, mkToken,
    semStmt, semStmts, semVarDecl, semExpr, SemanticChecker.new,
    SemanticChecker.pushSymbol, SemanticChecker.topBlockHasSymbol,
    SemanticChecker.getSymbol, SemanticChecker.topSymbol, zeroSymbol,
    Ty.isNumber, Ty.typeID, Ty.size, Expr.exprType, Expr.isAddressableOpt,
    Expr.isAddressableInterface, Expr.isAddressableFuel,
    SemanticChecker.addError, Ty.equals]

/-! ## C4 — `PushSymbol` offset assignment -/

/-- A successful `PushSymbol` yields exactly the checker with the new
symbol on top and `nextAddr` advanced by the symbol's size. -/
theorem pushSymbol_ok (c c2 : SemanticChecker) (id : String) (t : Ty)
    (k : Token) (h : c.pushSymbol id t k = (c2, none)) :
    c2 = SemanticChecker.mk c.errors
          (⟨id, t, c.nextAddr + t.size, t.size, k⟩ :: c.symbolTable)
          c.blockIndexTable (c.nextAddr + t.size) := by
  by_cases hb : c.topBlockHasSymbol id
  · simp [SemanticChecker.pushSymbol, hb, SemanticChecker.addError] at h
  · simp only [SemanticChecker.pushSymbol, hb, Bool.false_eq_true, if_false,
      if_neg] at h
    exact (congrArg Prod.fst h).symm

/-- **C4** counterexample: three size-8 symbols `a`, `c`, `b` declared in
that order in the same (global) scope receive offsets 8, 16, 24.  `a` and
`b` are two symbols declared in that order in the same scope, yet
`b.Offset - a.Offset = 24 - 8 = 16 ≠ 8 = size(b)`: the claimed difference
equation fails for non-consecutive pairs. -/
theorem c4_counterexample :
    (((SemanticChecker.new.pushSymbol "a" Ty.uint64 (mkToken .IDENT "a")).1.pushSymbol
        "c" Ty.uint64 (mkToken .IDENT "c")).1.pushSymbol
        "b" Ty.uint64 (mkToken .IDENT "b")).1.symbolTable.map Symbol.offset
      = [24, 16, 8] ∧
    ¬ ((24 - 8 : Nat) = Ty.size Ty.uint64) := by
  decide

/-- **C4** (amended): `PushSymbol` records offset `nextAddr + size(T)` and
then advances `nextAddr` by `size(T)` (so the first symbol of size 8 in an
empty checker gets offset 8); and for two symbols declared *consecutively*
(`b` pushed immediately after `a`), `b.Offset - a.Offset = size(b)`, with
`b.Offset > a.Offset` whenever `size(b) > 0`. -/
theorem c4_offset_assignment_amended
    (c : SemanticChecker) (ida idb : String) (ta tb : Ty) (ka kb : Token)
    (c1 c2 : SemanticChecker)
    (h1 : c.pushSymbol ida ta ka = (c1, none))
    (h2 : c1.pushSymbol idb tb kb = (c2, none)) :
    c1.symbolTable.head? = some ⟨ida, ta, c.nextAddr + ta.size, ta.size, ka⟩ ∧
    c1.nextAddr = c.nextAddr + ta.size ∧
    c2.symbolTable.head? =
      some ⟨idb, tb, c.nextAddr + ta.size + tb.size, tb.size, kb⟩ ∧
    (c.nextAddr + ta.size + tb.size) - (c.nextAddr + ta.size) = tb.size ∧
    (0 < tb.size → c.nextAddr + ta.size < c.nextAddr + ta.size + tb.size) := by
  have e1 := pushSymbol_ok _ _ _ _ _ h1
  subst e1
  have e2 := pushSymbol_ok _ _ _ _ _ h2
  subst e2
  refine ⟨rfl, rfl, rfl, by omega, fun h => by omega⟩

/-- **C4** witness: from an empty checker, `uint64 x` gets offset 8 and an
immediately following `uint8 y` gets offset 9 = 8 + size(uint8). -/
theorem c4_offset_assignment_witness :
    (SemanticChecker.new.pushSymbol "x" Ty.uint64
        (mkToken .IDENT "x")).1.symbolTable.head? =
      some ⟨"x", Ty.uint64, 8, 8, mkToken .IDENT "x"⟩ ∧
    ((SemanticChecker.new.pushSymbol "x" Ty.uint64
        (mkToken .IDENT "x")).1.pushSymbol "y" Ty.uint8
        (mkToken .IDENT "y")).1.symbolTable.head? =
      some ⟨"y", Ty.uint8, 9, 1, mkToken .IDENT "y"⟩ := by
  have h := c4_offset_assignment_amended SemanticChecker.new "x" "y"
    Ty.uint64 Ty.uint8 (mkToken .IDENT "x") (mkToken .IDENT "y") _ _ rfl rfl
  exact ⟨h.1, h.2.2.1⟩

/-! ## C10 — `nextAddr` never decreases; offsets never reused -/

/-- `PopBlock` pops symbols but leaves `nextAddr` untouched. -/
theorem popBlock_nextAddr (c : SemanticChecker) :
    (c.popBlock).1.nextAddr = c.nextAddr := by
  cases h : c.blockIndexTable <;> simp [SemanticChecker.popBlock, h]

/-- No checker operation decreases `nextAddr`. -/
theorem nextAddr_runOp_mono (op : CheckerOp) (c : SemanticChecker) :
    c.nextAddr ≤ (runOp op c).nextAddr := by
  cases op with
  | pushSym id t tok =>
      by_cases hb : c.topBlockHasSymbol id <;>
        simp [runOp, SemanticChecker.pushSymbol, hb, SemanticChecker.addError,
          Nat.le_add_right]
  | pushBlock => simp [runOp, SemanticChecker.pushBlock]
  | popBlock => simp [runOp, popBlock_nextAddr]

/-- No sequence of checker operations decreases `nextAddr`. -/
theorem nextAddr_runOps_mono (ops : List CheckerOp) (c : SemanticChecker) :
    c.nextAddr ≤ (runOps ops c).nextAddr := by
  induction ops generalizing c with
  | nil => exact Nat.le_refl _
  | cons op rest ih => exact Nat.le_trans (nextAddr_runOp_mono op c) (ih _)

/-- The instrumented run computes the same final checker. -/
theorem runOpsLog_fst (ops : List CheckerOp) (c : SemanticChecker) :
    (runOpsLog ops c).1 = runOps ops c := by
  induction ops generalizing c with
  | nil => rfl
  | cons op rest ih =>
      cases op with
      | pushSym id t tok => simp [runOpsLog, runOps, runOp, ih]
      | pushBlock => simp [runOpsLog, runOps, runOp, ih]
      | popBlock => simp [runOpsLog, runOps, runOp, ih]

/-- Every symbol ever declared during a run has its offset bounded by the
final `nextAddr`. -/
theorem runOpsLog_offset_le (ops : List CheckerOp) (c : SemanticChecker) :
    ∀ s ∈ (runOpsLog ops c).2, s.offset ≤ (runOps ops c).nextAddr := by
  induction ops generalizing c with
  | nil => simp [runOpsLog]
  | cons op rest ih =>
      intro s hs
      cases op with
      | pushSym id t tok =>
          by_cases hb : c.topBlockHasSymbol id
          · simp [runOpsLog, SemanticChecker.pushSymbol, hb,
              SemanticChecker.addError, runOps, runOp] at hs ⊢
            exact ih _ s (by simpa [SemanticChecker.pushSymbol, hb,
              SemanticChecker.addError] using hs)
          · simp only [runOpsLog, SemanticChecker.pushSymbol, hb,
              Bool.false_eq_true, if_neg, if_false] at hs
            simp only [runOps, runOp, SemanticChecker.pushSymbol, hb,
              Bool.false_eq_true, if_neg, if_false]
            rcases List.mem_append.mp hs with hnew | hrest
            · have hmono := nextAddr_runOps_mono rest
                ⟨c.errors, ⟨id, t, c.nextAddr + t.size, t.size, tok⟩ ::
                  c.symbolTable, c.blockIndexTable, c.nextAddr + t.size⟩
              have hsym : s = ⟨id, t, c.nextAddr + t.size, t.size, tok⟩ := by
                simpa [List.take] using hnew
              subst hsym
              simpa using hmono
            · exact ih _ s hrest
      | pushBlock =>
          simp only [runOpsLog] at hs
          simpa [runOps, runOp] using ih _ s hs
      | popBlock =>
          simp only [runOpsLog] at hs
          simpa [runOps, runOp] using ih _ s hs

/-- **C10** (amended): `PopBlock` leaves `nextAddr` unchanged, and across
any whole compilation (any interleaving of declarations and scope
entries/exits) every symbol ever declared has offset at most the current
`nextAddr`; a subsequent successful declaration therefore receives an
offset that is ≥ every earlier symbol's offset — including symbols of
sibling scopes already popped — and *strictly* greater whenever the new
symbol's size is positive (a zero-size symbol, e.g. a zero-length array,
repeats the previous offset, which is why the original strict claim
fails). -/
theorem c10_offsets_monotone_amended (ops : List CheckerOp)
    (c : SemanticChecker) (s : Symbol) (hs : s ∈ (runOpsLog ops c).2)
    (id : String) (t : Ty) (k : Token) (c2 : SemanticChecker)
    (hpush : (runOps ops c).pushSymbol id t k = (c2, none)) :
    ((c.popBlock).1.nextAddr = c.nextAddr) ∧
    s.offset ≤ (runOps ops c).nextAddr ∧
    (∀ sb, c2.symbolTable.head? = some sb →
      s.offset ≤ sb.offset ∧ (0 < t.size → s.offset < sb.offset)) := by
  refine ⟨popBlock_nextAddr c, runOpsLog_offset_le ops c s hs, ?_⟩
  intro sb hsb
  have hoff := runOpsLog_offset_le ops c s hs
  have e2 := pushSymbol_ok _ _ _ _ _ hpush
  subst e2
  simp only [List.head?, Option.some.injEq] at hsb
  subst hsb
  refine ⟨?_, fun hpos => ?_⟩
  · show s.offset ≤ (runOps ops c).nextAddr + t.size
    exact Nat.le_trans hoff (Nat.le_add_right _ _)
  · show s.offset < (runOps ops c).nextAddr + t.size
    omega

/-- **C10** counterexample to the strict inequality: `uint64 a` gets
offset 8, and the zero-size `uint64[0] b` declared after it gets
`offset = nextAddr + 0 = 8` as well — not strictly larger than `a`'s. -/
theorem c10_counterexample :
    (((SemanticChecker.new.pushSymbol "a" Ty.uint64
        (mkToken .IDENT "a")).1.pushSymbol
        "b" (Ty.array Ty.uint64 0) (mkToken .IDENT "b")).1.symbolTable.map
      Symbol.offset) = [8, 8] := by decide

/-! ## C3 — block scoping restores the table; `BlockSize` sums the scope -/

/-- `AddError` touches only the error list. -/
@[simp] theorem addError_symbolTable (c : SemanticChecker) (m : String) :
    (c.addError m).1.symbolTable = c.symbolTable := rfl

/-- `AddError` touches only the error list. -/
@[simp] theorem addError_blockIndexTable (c : SemanticChecker) (m : String) :
    (c.addError m).1.blockIndexTable = c.blockIndexTable := rfl

/-- `AddError` touches only the error list. -/
@[simp] theorem addError_nextAddr (c : SemanticChecker) (m : String) :
    (c.addError m).1.nextAddr = c.nextAddr := rfl

/-- `GetSymbol` touches at most the error list. -/
theorem getSymbol_fields (c : SemanticChecker) (tok : Token) :
    (c.getSymbol tok).2.symbolTable = c.symbolTable ∧
    (c.getSymbol tok).2.blockIndexTable = c.blockIndexTable ∧
    (c.getSymbol tok).2.nextAddr = c.nextAddr := by
  unfold SemanticChecker.getSymbol
  cases c.symbolTable.find? (fun s => s.ident == tok.value) <;>
    exact ⟨rfl, rfl, rfl⟩

/-- Destructor for a successful `Option` bind, as the `do` blocks of the
semantic functions desugar it. -/
theorem optionBind_elim {α β : Type _} {x : Option α} {f : α → Option β}
    {b : β} (h : x >>= f = some b) : ∃ a, x = some a ∧ f a = some b := by
  cases x with
  | none => exact Option.noConfusion h
  | some a => exact ⟨a, rfl, h⟩

/-- Expression semantics never touches the symbol table, the block-index
stack, or `nextAddr` — only the error list and the node's own fields. -/
theorem semExpr_checker (e : Expr) : ∀ c out, semExpr e c = some out →
    out.2.1.symbolTable = c.symbolTable ∧
    out.2.1.blockIndexTable = c.blockIndexTable ∧
    out.2.1.nextAddr = c.nextAddr := by
  induction e with
  | binary t l op r ihl ihr =>
      intro c out h
      simp only [semExpr] at h
      obtain ⟨⟨l2, c1, e1⟩, hl, h⟩ := optionBind_elim h
      have fl := ihl _ _ hl
      by_cases he1 : e1.isSome
      · simp only [he1, if_true] at h
        have hout := Option.some.inj h
        subst hout
        exact fl
      · simp only [he1, if_false, Bool.false_eq_true] at h
        obtain ⟨⟨r2, c2, e2⟩, hr, h⟩ := optionBind_elim h
        have fr := ihr _ _ hr
        have comp : c2.symbolTable = c.symbolTable ∧
            c2.blockIndexTable = c.blockIndexTable ∧
            c2.nextAddr = c.nextAddr :=
          ⟨fr.1.trans fl.1, fr.2.1.trans fl.2.1, fr.2.2.trans fl.2.2⟩
        by_cases he2 : e2.isSome
        · simp only [he2, if_true] at h
          have hout := Option.some.inj h
          subst hout
          exact comp
        · simp only [he2, if_false, Bool.false_eq_true] at h
          split at h <;>
          · have hout := Option.some.inj h
            subst hout
            simpa using comp
  | prefixExpression t op r a =>
      intro c out h
      have hout := Option.some.inj h
      subst hout; exact ⟨rfl, rfl, rfl⟩
  | postfixExpression t l op a =>
      intro c out h
      have hout := Option.some.inj h
      subst hout; exact ⟨rfl, rfl, rfl⟩
  | deref t op r ihr =>
      intro c out h
      simp only [semExpr] at h
      obtain ⟨⟨r2, c1, e1⟩, hr, h⟩ := optionBind_elim h
      have fr := ihr _ _ hr
      by_cases he1 : e1.isSome
      · simp only [he1, if_true] at h
        have hout := Option.some.inj h
        subst hout; exact fr
      · simp only [he1, if_false, Bool.false_eq_true] at h
        split at h <;>
        · have hout := Option.some.inj h
          subst hout
          simpa using fr
  | ref t op r ihr =>
      intro c out h
      simp only [semExpr] at h
      obtain ⟨⟨r2, c1, e1⟩, hr, h⟩ := optionBind_elim h
      have fr := ihr _ _ hr
      by_cases he1 : e1.isSome
      · simp only [he1, if_true] at h
        have hout := Option.some.inj h
        subst hout; exact fr
      · simp only [he1, if_false, Bool.false_eq_true] at h
        obtain ⟨b, hb, h⟩ := optionBind_elim h
        by_cases hbv : b = true
        · subst hbv
          simp only [eq_self_iff_true, not_true, if_false] at h
          have hout := Option.some.inj h
          subst hout; exact fr
        · rw [Bool.not_eq_true] at hbv
          subst hbv
          simp only [Bool.false_eq_true, not_false_iff, if_true] at h
          have hout := Option.some.inj h
          subst hout
          simpa using fr
  | lit t v =>
      intro c out h
      have hout := Option.some.inj h
      subst hout; exact ⟨rfl, rfl, rfl⟩
  | ident t tok sym =>
      intro c out h
      have fg := getSymbol_fields c tok
      simp only [semExpr] at h
      rcases hg : c.getSymbol tok with ⟨os, c1⟩
      rw [hg] at h fg
      cases os <;>
      · have hout := Option.some.inj h
        subst hout
        exact fg
  | group t e ihe =>
      intro c out h
      simp only [semExpr] at h
      obtain ⟨⟨e2, c1, e1⟩, he, h⟩ := optionBind_elim h
      have fe := ihe _ _ he
      by_cases he1 : e1.isSome
      · simp only [he1, if_true] at h
        have hout := Option.some.inj h
        subst hout; exact fe
      · simp only [he1, if_false, Bool.false_eq_true] at h
        have hout := Option.some.inj h
        subst hout; exact fe
  | arrayAccess t l idx br ihl ihi =>
      intro c out h
      simp only [semExpr] at h
      obtain ⟨⟨l2, c1, e1⟩, hl, h⟩ := optionBind_elim h
      have fl := ihl _ _ hl
      by_cases he1 : e1.isSome
      · simp only [he1, if_true] at h
        have hout := Option.some.inj h
        subst hout; exact fl
      · simp only [he1, if_false, Bool.false_eq_true] at h
        obtain ⟨⟨i2, c2, e2⟩, hi, h⟩ := optionBind_elim h
        have fi := ihi _ _ hi
        have comp : c2.symbolTable = c.symbolTable ∧
            c2.blockIndexTable = c.blockIndexTable ∧
            c2.nextAddr = c.nextAddr :=
          ⟨fi.1.trans fl.1, fi.2.1.trans fl.2.1, fi.2.2.trans fl.2.2⟩
        by_cases he2 : e2.isSome
        · simp only [he2, if_true] at h
          have hout := Option.some.inj h
          subst hout; exact comp
        · simp only [he2, if_false, Bool.false_eq_true] at h
          split at h
          · have hout := Option.some.inj h
            subst hout
            simpa using comp
          · split at h <;>
            · have hout := Option.some.inj h
              subst hout
              simpa using comp

/-- `ChkFrame` from field equalities (nothing changed). -/
theorem ChkFrame.ofEq {c c2 : SemanticChecker}
    (h1 : c2.symbolTable = c.symbolTable)
    (h2 : c2.blockIndexTable = c.blockIndexTable)
    (h3 : c2.nextAddr = c.nextAddr) : ChkFrame c c2 :=
  ⟨⟨[], by simp [h1]⟩, h2, Nat.le_of_eq h3.symm⟩

/-- `ChkFrame` composes. -/
theorem ChkFrame.trans {a b c : SemanticChecker}
    (h1 : ChkFrame a b) (h2 : ChkFrame b c) : ChkFrame a c := by
  obtain ⟨⟨n1, hs1⟩, hb1, hn1⟩ := h1
  obtain ⟨⟨n2, hs2⟩, hb2, hn2⟩ := h2
  exact ⟨⟨n2 ++ n1, by rw [hs2, hs1, List.append_assoc]⟩,
    hb2.trans hb1, Nat.le_trans hn1 hn2⟩

/-- `PushSymbol` leaves a `ChkFrame` whatever its outcome. -/
theorem pushSymbol_frame (c : SemanticChecker) (id : String) (t : Ty)
    (k : Token) : ChkFrame c (c.pushSymbol id t k).1 := by
  by_cases hb : c.topBlockHasSymbol id
  · simp only [SemanticChecker.pushSymbol, hb, if_true]
    exact ChkFrame.ofEq rfl rfl rfl
  · simp only [SemanticChecker.pushSymbol, hb, Bool.false_eq_true, if_false,
      if_neg]
    exact ⟨⟨[⟨id, t, c.nextAddr + t.size, t.size, k⟩], rfl⟩, rfl,
      Nat.le_add_right _ _⟩

/-- `PopBlock` on a checker whose table is `new` symbols above the mark it
is about to pop: the table and block-index stack are exactly restored,
`nextAddr` is untouched, and the freed size is the total size of `new`. -/
theorem popBlock_after (c c2 : SemanticChecker) (new : List Symbol)
    (hsym : c2.symbolTable = new ++ c.symbolTable)
    (hblk : c2.blockIndexTable = c.symbolTable.length :: c.blockIndexTable) :
    (c2.popBlock).1.symbolTable = c.symbolTable ∧
    (c2.popBlock).1.blockIndexTable = c.blockIndexTable ∧
    (c2.popBlock).1.nextAddr = c2.nextAddr ∧
    (c2.popBlock).2 = (new.map Symbol.size).sum := by
  refine ⟨?_, ?_, ?_, ?_⟩ <;>
    simp [SemanticChecker.popBlock, hblk, hsym, List.length_append,
      Nat.add_sub_cancel, List.drop_left, List.take_left]

/-- The statement-level frame, by strong induction on size: a statement's
(or statement list's) semantic analysis only stacks new symbols on top of
the caller's table, restores the block-index stack exactly, and never
shrinks `nextAddr`. -/
theorem semStmt_frame_aux : ∀ n : Nat,
    (∀ st : Stmt, sizeOf st ≤ n → ∀ c out, semStmt st c = some out →
      ChkFrame c out.2.1) ∧
    (∀ ss : List Stmt, sizeOf ss ≤ n → ∀ c out, semStmts ss c = some out →
      ChkFrame c out.2) := by
  intro n
  induction n with
  | zero =>
      constructor
      · intro st hst
        exact absurd hst (by cases st <;> simp)
      · intro ss hss
        exact absurd hss (by cases ss <;> simp)
  | succ n ihn =>
      obtain ⟨ihS, ihL⟩ := ihn
      constructor
      · intro st hst c out h
        cases st with
        | nilStmt =>
            simp only [semStmt] at h
            exact Option.noConfusion h
        | varDecl vt id val sym =>
            cases val with
            | none =>
                simp only [semStmt, semVarDecl] at h
                have frame := pushSymbol_frame c id.value vt id
                rcases hp : c.pushSymbol id.value vt id with ⟨c2, err⟩
                rw [hp] at h frame
                cases err with
                | some e =>
                    have hout := Option.some.inj h
                    subst hout; exact frame
                | none =>
                    have hout := Option.some.inj h
                    subst hout; exact frame
            | some v =>
                simp only [semStmt, semVarDecl] at h
                obtain ⟨⟨v2, c1, e1⟩, hv, h⟩ := optionBind_elim h
                have fv := ChkFrame.ofEq (semExpr_checker v _ _ hv).1
                  (semExpr_checker v _ _ hv).2.1 (semExpr_checker v _ _ hv).2.2
                by_cases he1 : e1.isSome
                · simp only [he1, if_true] at h
                  have hout := Option.some.inj h
                  subst hout; exact fv
                · simp only [he1, if_false, Bool.false_eq_true] at h
                  split at h
                  · have hout := Option.some.inj h
                    subst hout
                    exact fv.trans (ChkFrame.ofEq rfl rfl rfl)
                  · have frame := pushSymbol_frame c1 id.value vt id
                    rcases hp : c1.pushSymbol id.value vt id with ⟨c2, err⟩
                    rw [hp] at h frame
                    cases err with
                    | some e =>
                        have hout := Option.some.inj h
                        subst hout; exact fv.trans frame
                    | none =>
                        have hout := Option.some.inj h
                        subst hout; exact fv.trans frame
        | varDef l op2 r =>
            simp only [semStmt, semVarDef] at h
            obtain ⟨⟨l2, c1, e1⟩, hl, h⟩ := optionBind_elim h
            have fl := ChkFrame.ofEq (semExpr_checker l _ _ hl).1
              (semExpr_checker l _ _ hl).2.1 (semExpr_checker l _ _ hl).2.2
            by_cases he1 : e1.isSome
            · simp only [he1, if_true] at h
              have hout := Option.some.inj h
              subst hout; exact fl
            · simp only [he1, if_false, Bool.false_eq_true] at h
              obtain ⟨⟨r2, c2, e2⟩, hr, h⟩ := optionBind_elim h
              have fr := fl.trans (ChkFrame.ofEq (semExpr_checker r _ _ hr).1
                (semExpr_checker r _ _ hr).2.1 (semExpr_checker r _ _ hr).2.2)
              by_cases he2 : e2.isSome
              · simp only [he2, if_true] at h
                have hout := Option.some.inj h
                subst hout; exact fr
              · simp only [he2, if_false, Bool.false_eq_true] at h
                split at h
                · have hout := Option.some.inj h
                  subst hout
                  exact fr.trans (ChkFrame.ofEq rfl rfl rfl)
                · split at h <;>
                  · have hout := Option.some.inj h
                    subst hout
                    exact fr.trans (ChkFrame.ofEq rfl rfl rfl)
        | block stmts bs =>
            have hsz : sizeOf stmts ≤ n := by
              simp only [Stmt.block.sizeOf_spec] at hst
              omega
            simp only [semStmt] at h
            obtain ⟨⟨stmts2, c2⟩, hs, h⟩ := optionBind_elim h
            obtain ⟨⟨new, hsym⟩, hblk, hnext⟩ := ihL stmts hsz _ _ hs
            have hpa := popBlock_after c c2 new
              (by simpa [SemanticChecker.pushBlock] using hsym)
              (by simpa [SemanticChecker.pushBlock] using hblk)
            rcases hpb : c2.popBlock with ⟨c3, size⟩
            rw [hpb] at h hpa
            have hout := Option.some.inj h
            subst hout
            refine ⟨⟨[], by simpa using hpa.1⟩, by simpa using hpa.2.1, ?_⟩
            have hle : c.nextAddr ≤ c2.nextAddr := by
              simpa [SemanticChecker.pushBlock] using hnext
            exact hle.trans_eq hpa.2.2.1.symm
        | ifStmt it cond st els =>
            simp only [semStmt] at h
            obtain ⟨⟨cond2, c1, e1⟩, hc, h⟩ := optionBind_elim h
            have fc := ChkFrame.ofEq (semExpr_checker cond _ _ hc).1
              (semExpr_checker cond _ _ hc).2.1 (semExpr_checker cond _ _ hc).2.2
            by_cases he1 : e1.isSome
            · simp only [he1, if_true] at h
              have hout := Option.some.inj h
              subst hout; exact fc
            · simp only [he1, if_false, Bool.false_eq_true] at h
              split at h
              · have hout := Option.some.inj h
                subst hout
                exact fc.trans (ChkFrame.ofEq rfl rfl rfl)
              · obtain ⟨⟨st2, c2, e2⟩, hs, h⟩ := optionBind_elim h
                have hszs : sizeOf st ≤ n := by
                  simp only [Stmt.ifStmt.sizeOf_spec] at hst
                  omega
                have fs := fc.trans (ihS st hszs _ _ hs)
                by_cases he2 : e2.isSome
                · simp only [he2, if_true] at h
                  have hout := Option.some.inj h
                  subst hout; exact fs
                · simp only [he2, if_false, Bool.false_eq_true] at h
                  cases els with
                  | none =>
                      have hout := Option.some.inj h
                      subst hout; exact fs
                  | some es =>
                      obtain ⟨⟨es2, c3, e3⟩, hes, h⟩ := optionBind_elim h
                      have hsze : sizeOf es ≤ n := by
                        simp only [Stmt.ifStmt.sizeOf_spec,
                          Option.some.sizeOf_spec] at hst
                        omega
                      have fes := fs.trans (ihS es hsze _ _ hes)
                      by_cases he3 : e3.isSome
                      · simp only [he3, if_true] at h
                        have hout := Option.some.inj h
                        subst hout; exact fes
                      · simp only [he3, if_false, Bool.false_eq_true] at h
                        have hout := Option.some.inj h
                        subst hout; exact fes
        | assertStmt at2 ex =>
            simp only [semStmt, semAssert] at h
            obtain ⟨⟨ex2, c1, e1⟩, he, h⟩ := optionBind_elim h
            have fe := ChkFrame.ofEq (semExpr_checker ex _ _ he).1
              (semExpr_checker ex _ _ he).2.1 (semExpr_checker ex _ _ he).2.2
            by_cases he1 : e1.isSome
            · simp only [he1, if_true] at h
              have hout := Option.some.inj h
              subst hout; exact fe
            · simp only [he1, if_false, Bool.false_eq_true] at h
              split at h <;>
              · have hout := Option.some.inj h
                subst hout
                exact fe.trans (ChkFrame.ofEq rfl rfl rfl)
        | exprStmt ex =>
            simp only [semStmt, semExprStmt] at h
            obtain ⟨⟨ex2, c1, e1⟩, he, h⟩ := optionBind_elim h
            have hout := Option.some.inj h
            subst hout
            exact ChkFrame.ofEq (semExpr_checker ex _ _ he).1
              (semExpr_checker ex _ _ he).2.1 (semExpr_checker ex _ _ he).2.2
      · intro ss hss c out h
        cases ss with
        | nil =>
            simp only [semStmts] at h
            have hout := Option.some.inj h
            subst hout
            exact ChkFrame.ofEq rfl rfl rfl
        | cons s rest =>
            have hszs : sizeOf s ≤ n := by
              simp only [List.cons.sizeOf_spec] at hss
              omega
            have hszr : sizeOf rest ≤ n := by
              simp only [List.cons.sizeOf_spec] at hss
              omega
            simp only [semStmts] at h
            obtain ⟨⟨s2, c1, e1⟩, hs, h⟩ := optionBind_elim h
            obtain ⟨⟨rest2, c2⟩, hr, h⟩ := optionBind_elim h
            have hout := Option.some.inj h
            subst hout
            exact (ihS s hszs c (s2, c1, e1) hs).trans
              (ihL rest hszr c1 (rest2, c2) hr)

/-- **C3**: for every block statement whose semantic analysis completes,
the checker's symbol table and block-index stack after `PopBlock` are
*exactly* what they were before the matching `PushBlock` (in particular
the depths agree), and the `BlockSize` recorded on the node is the total
`Size` of exactly the symbols sitting above the saved mark when the scope
ends — the symbols declared directly in that scope.  (Inner blocks
contribute nothing to that prefix: applying this same theorem to an inner
block statement shows it restores the table it was given.) -/
theorem c3_block_scope_restore (stmts : List Stmt) (bs : Nat)
    (c : SemanticChecker) (out : Stmt × SemanticChecker × Option String)
    (h : semStmt (.block stmts bs) c = some out) :
    out.2.1.symbolTable = c.symbolTable ∧
    out.2.1.blockIndexTable = c.blockIndexTable ∧
    out.2.2 = none ∧
    ∃ inner newSyms,
      semStmts stmts c.pushBlock = some inner ∧
      inner.2.symbolTable = newSyms ++ c.symbolTable ∧
      out.1 = .block inner.1 ((newSyms.map Symbol.size).sum) := by
  simp only [semStmt] at h
  obtain ⟨⟨stmts2, c2⟩, hs, h⟩ := optionBind_elim h
  obtain ⟨⟨new, hsym⟩, hblk, hnext⟩ :=
    (semStmt_frame_aux (sizeOf stmts)).2 stmts (Nat.le_refl _) _ _ hs
  have hpa := popBlock_after c c2 new
    (by simpa [SemanticChecker.pushBlock] using hsym)
    (by simpa [SemanticChecker.pushBlock] using hblk)
  rcases hpb : c2.popBlock with ⟨c3, size⟩
  rw [hpb] at h hpa
  have hout := Option.some.inj h
  subst hout
  refine ⟨by simpa using hpa.1, by simpa using hpa.2.1, rfl,
    ⟨stmts2, c2⟩, new, hs, by simpa [SemanticChecker.pushBlock] using hsym,
    ?_⟩
  have hout := Option.some.inj h
  rw [congrArg (fun q => q.1) hout.symm]
  exact congrArg (fun s => Stmt.block (stmts2, c2).1 s) hpa.2.2.2

/-- **C3** witness: the block `{ uint8 a; { uint64 y; } uint8 b; }`
analyzed from a fresh checker restores the empty table and the global
block-index stack, returns no error, and records `BlockSize = 2`
(`a` and `b` only; the inner `uint64 y` was popped by its own block). -/
theorem c3_block_scope_restore_witness :
    ∃ out, semStmt (Stmt.block c3WitnessStmts 0) SemanticChecker.new = some out ∧
      out.2.1.symbolTable = SemanticChecker.new.symbolTable ∧
      out.2.1.blockIndexTable = SemanticChecker.new.blockIndexTable ∧
      out.2.2 = none ∧
      (∃ inner newSyms,
        semStmts c3WitnessStmts SemanticChecker.new.pushBlock = some inner ∧
        inner.2.symbolTable = newSyms ++ SemanticChecker.new.symbolTable ∧
        out.1 = .block inner.1 ((newSyms.map Symbol.size).sum)) := by
  have hrun : semStmt (Stmt.block c3WitnessStmts 0) SemanticChecker.new
      = some c3Out := by
    simp [c3WitnessStmts, c3Out, mkToken,
      semStmt, semStmts, semVarDecl, SemanticChecker.new,
      SemanticChecker.pushSymbol, SemanticChecker.topBlockHasSymbol,
      SemanticChecker.pushBlock, SemanticChecker.popBlock,
      SemanticChecker.topSymbol, zeroSymbol,
      Ty.isNumber, Ty.typeID, Ty.size, SemanticChecker.addError]
  obtain ⟨h1, h2, h3, h4⟩ :=
    c3_block_scope_restore c3WitnessStmts 0 SemanticChecker.new c3Out hrun
  exact ⟨c3Out, hrun, h1, h2, h3, h4⟩

/-! ## C8 — if-statement emission -/

/-- Destructs a successful `Except` bind into the intermediate result. -/
theorem exceptBind_elim {α β : Type _} {x : Except String α}
    {f : α → Except String β} {b : β}
    (h : x >>= f = Except.ok b) :
    ∃ a, x = Except.ok a ∧ f a = Except.ok b := by
  cases x with
  | error e => simp [Bind.bind, Except.bind] at h
  | ok a => exact ⟨a, rfl, by simpa [Bind.bind, Except.bind] using h⟩

/-- The emitter frame is reflexive. -/
theorem emFrame_refl (e : Emitter) : EmFrame e e :=
  ⟨⟨[], by simp⟩, Nat.le_refl _⟩

/-- The emitter frame composes. -/
theorem EmFrame.comp {a b c : Emitter} (h1 : EmFrame a b) (h2 : EmFrame b c) :
    EmFrame a c := by
  obtain ⟨⟨d1, hd1⟩, hl1⟩ := h1
  obtain ⟨⟨d2, hd2⟩, hl2⟩ := h2
  exact ⟨⟨d1 ++ d2, by simp [hd2, hd1]⟩, Nat.le_trans hl1 hl2⟩

/-- A `Write` appends one line and keeps the label counter. -/
theorem emFrame_write (a : Emitter) (s : String) : EmFrame a (a.write s) :=
  ⟨⟨[s], by simp [Emitter.write]⟩, Nat.le_refl _⟩

/-- `NextLabel` keeps the code and bumps the label counter. -/
theorem emFrame_nextLabel (a : Emitter) : EmFrame a a.nextLabel.2 :=
  ⟨⟨[], by simp [Emitter.nextLabel]⟩, Nat.le_succ _⟩

/-- Expression emission only appends code and never decreases the label
counter (joint statement for `EmitCode` and `EmitAddressCode`, by strong
induction on the expression size). -/
theorem emitExpr_frame_aux : ∀ n : Nat,
    (∀ ex : Expr, sizeOf ex ≤ n → ∀ e out, emitExpr ex e = Except.ok out →
      EmFrame e out) ∧
    (∀ ex : Expr, sizeOf ex ≤ n → ∀ e out, emitAddress ex e = Except.ok out →
      EmFrame e out) := by
  intro n
  induction n with
  | zero =>
      constructor
      · intro ex hex
        exact absurd hex (by cases ex <;> simp)
      · intro ex hex
        exact absurd hex (by cases ex <;> simp)
  | succ n ihn =>
      obtain ⟨ihE, ihA⟩ := ihn
      constructor
      · intro ex hex e out h
        cases ex with
        | binary t l op r =>
            have hszl : sizeOf l ≤ n := by
              simp only [Expr.binary.sizeOf_spec] at hex; omega
            have hszr : sizeOf r ≤ n := by
              simp only [Expr.binary.sizeOf_spec] at hex; omega
            simp only [emitExpr] at h
            obtain ⟨e2, hr, h⟩ := exceptBind_elim h
            obtain ⟨e4, hl, h⟩ := exceptBind_elim h
            have f4 := ((emFrame_write e _).comp (ihE r hszr _ _ hr)).comp
              ((emFrame_write e2 _).comp (ihE l hszl _ _ hl))
            split at h
            · have hout := Except.ok.inj h
              subst hout
              exact f4.comp ((emFrame_write e4 _).comp (emFrame_write _ _))
            · split at h
              · have hout := Except.ok.inj h
                subst hout
                exact f4.comp ((emFrame_write e4 _).comp (emFrame_write _ _))
              · split at h
                · have hout := Except.ok.inj h
                  subst hout
                  exact f4.comp (((emFrame_write e4 _).comp
                    (emFrame_write _ _)).comp (emFrame_write _ _))
                · have hout := Except.ok.inj h
                  subst hout
                  exact f4.comp (emFrame_write e4 _)
        | prefixExpression t op r ad =>
            simp only [emitExpr] at h
            have hout := Except.ok.inj h
            subst hout
            exact emFrame_refl e
        | postfixExpression t l op ad =>
            simp only [emitExpr] at h
            have hout := Except.ok.inj h
            subst hout
            exact emFrame_refl e
        | deref t op r =>
            have hszr : sizeOf r ≤ n := by
              simp only [Expr.deref.sizeOf_spec] at hex; omega
            simp only [emitExpr] at h
            obtain ⟨e2, hr, h⟩ := exceptBind_elim h
            have hout := Except.ok.inj h
            subst hout
            exact ((emFrame_write e _).comp (ihE r hszr _ _ hr)).comp
              (emFrame_write e2 _)
        | ref t op r =>
            have hszr : sizeOf r ≤ n := by
              simp only [Expr.ref.sizeOf_spec] at hex; omega
            simp only [emitExpr] at h
            split at h
            · exact (emFrame_write e _).comp (ihA r hszr _ _ h)
            · exact Except.noConfusion h
        | lit t v =>
            simp only [emitExpr] at h
            have hout := Except.ok.inj h
            subst hout
            exact (emFrame_write e _).comp (emFrame_write _ _)
        | ident t tok sym =>
            simp only [emitExpr] at h
            have hout := Except.ok.inj h
            subst hout
            exact (emFrame_write e _).comp (emFrame_write _ _)
        | group t inner =>
            have hsz : sizeOf inner ≤ n := by
              simp only [Expr.group.sizeOf_spec] at hex; omega
            simp only [emitExpr] at h
            exact ihE inner hsz _ _ h
        | arrayAccess t l ix ob =>
            simp only [emitExpr] at h
            exact Except.noConfusion h
      · intro ex hex e out h
        cases ex with
        | binary t l op r =>
            simp only [emitAddress] at h
            exact Except.noConfusion h
        | prefixExpression t op r ad =>
            simp only [emitAddress] at h
            exact Except.noConfusion h
        | postfixExpression t l op ad =>
            simp only [emitAddress] at h
            exact Except.noConfusion h
        | deref t op r =>
            have hszr : sizeOf r ≤ n := by
              simp only [Expr.deref.sizeOf_spec] at hex; omega
            simp only [emitAddress] at h
            exact (emFrame_write e _).comp (ihE r hszr _ _ h)
        | ref t op r =>
            simp only [emitAddress] at h
            exact Except.noConfusion h
        | lit t v =>
            simp only [emitAddress] at h
            exact Except.noConfusion h
        | ident t tok sym =>
            simp only [emitAddress] at h
            have hout := Except.ok.inj h
            subst hout
            exact (emFrame_write e _).comp (emFrame_write _ _)
        | group t inner =>
            have hsz : sizeOf inner ≤ n := by
              simp only [Expr.group.sizeOf_spec] at hex; omega
            simp only [emitAddress] at h
            split at h
            · exact ihA inner hsz _ _ h
            · have hout := Except.ok.inj h
              subst hout
              exact emFrame_refl e
        | arrayAccess t l ix ob =>
            simp only [emitAddress] at h
            exact Except.noConfusion h

/-- `EmitCode` of an expression leaves an emitter frame. -/
theorem emitExpr_frame (ex : Expr) (e out : Emitter)
    (h : emitExpr ex e = Except.ok out) : EmFrame e out :=
  (emitExpr_frame_aux (sizeOf ex)).1 ex (Nat.le_refl _) e out h

/-- `EmitAddressCode` of an expression leaves an emitter frame. -/
theorem emitAddress_frame (ex : Expr) (e out : Emitter)
    (h : emitAddress ex e = Except.ok out) : EmFrame e out :=
  (emitExpr_frame_aux (sizeOf ex)).2 ex (Nat.le_refl _) e out h

/-- Statement emission only appends code and never decreases the label
counter. -/
theorem emitStmt_frame_aux : ∀ n : Nat,
    (∀ st : Stmt, sizeOf st ≤ n → ∀ e out, emitStmt st e = Except.ok out →
      EmFrame e out) ∧
    (∀ ss : List Stmt, sizeOf ss ≤ n → ∀ e out,
      emitStmts ss e = Except.ok out → EmFrame e out) := by
  intro n
  induction n with
  | zero =>
      constructor
      · intro st hst
        exact absurd hst (by cases st <;> simp)
      · intro ss hss
        exact absurd hss (by cases ss <;> simp)
  | succ n ihn =>
      obtain ⟨ihS, ihL⟩ := ihn
      constructor
      · intro st hst e out h
        cases st with
        | nilStmt =>
            simp only [emitStmt] at h
            exact Except.noConfusion h
        | varDecl vt id val sym =>
            cases val with
            | none =>
                simp only [emitStmt] at h
                have hout := Except.ok.inj h
                subst hout
                exact (emFrame_write e _).comp (emFrame_write _ _)
            | some v =>
                simp only [emitStmt] at h
                obtain ⟨e3, hv, h⟩ := exceptBind_elim h
                have hout := Except.ok.inj h
                subst hout
                exact (((emFrame_write e _).comp (emFrame_write _ _)).comp
                  (emitExpr_frame v _ _ hv)).comp (emFrame_write e3 _)
        | varDef l op2 r =>
            simp only [emitStmt] at h
            split at h
            · obtain ⟨e2, ha, h⟩ := exceptBind_elim h
              obtain ⟨e4, hr, h⟩ := exceptBind_elim h
              have hout := Except.ok.inj h
              subst hout
              exact (((((emFrame_write e _).comp
                (emitAddress_frame l _ _ ha)).comp
                (emFrame_write e2 _)).comp
                (emitExpr_frame r _ _ hr)).comp
                (emFrame_write e4 _)).comp (emFrame_write _ _)
            · exact Except.noConfusion h
        | block stmts bs =>
            have hsz : sizeOf stmts ≤ n := by
              simp only [Stmt.block.sizeOf_spec] at hst; omega
            simp only [emitStmt] at h
            obtain ⟨e2, hs, h⟩ := exceptBind_elim h
            have hout := Except.ok.inj h
            subst hout
            exact ((emFrame_write e _).comp (ihL stmts hsz _ _ hs)).comp
              (emFrame_write e2 _)
        | ifStmt it cond st els =>
            have hszs : sizeOf st ≤ n := by
              simp only [Stmt.ifStmt.sizeOf_spec] at hst; omega
            simp only [emitStmt, Emitter.nextLabel] at h
            obtain ⟨e2, hc, h⟩ := exceptBind_elim h
            obtain ⟨e6, hs, h⟩ := exceptBind_elim h
            have fs : EmFrame e e6 :=
              (((emFrame_write e _).comp
                (emitExpr_frame cond _ _ hc)).comp
                (((emFrame_write e2 _).comp (emFrame_nextLabel _)).comp
                  (emFrame_write _ _))).comp (ihS st hszs _ _ hs)
            cases els with
            | none =>
                obtain ⟨e10, h10, h⟩ := exceptBind_elim h
                have hout := Except.ok.inj h
                subst hout
                have h10e := Except.ok.inj h10
                subst h10e
                exact fs.comp ((((emFrame_nextLabel e6).comp
                  (emFrame_write _ _)).comp (emFrame_write _ _)).comp
                  (emFrame_write _ _))
            | some es =>
                have hsze : sizeOf es ≤ n := by
                  simp only [Stmt.ifStmt.sizeOf_spec,
                    Option.some.sizeOf_spec] at hst
                  omega
                obtain ⟨e10, h10, h⟩ := exceptBind_elim h
                have hout := Except.ok.inj h
                subst hout
                exact (fs.comp
                  ((((emFrame_nextLabel e6).comp
                    (emFrame_write _ _)).comp (emFrame_write _ _)).comp
                    (ihS es hsze _ _ h10))).comp (emFrame_write e10 _)
        | assertStmt at2 ex =>
            simp only [emitStmt, Emitter.nextLabel] at h
            obtain ⟨e2, hx, h⟩ := exceptBind_elim h
            have hout := Except.ok.inj h
            subst hout
            exact ((((emFrame_write e _).comp
              (emitExpr_frame ex _ _ hx)).comp
              (((emFrame_write e2 _).comp (emFrame_nextLabel _)).comp
                (emFrame_write _ _))).comp
              (emFrame_write _ _)).comp (emFrame_write _ _)
        | exprStmt ex =>
            simp only [emitStmt] at h
            exact emitExpr_frame ex _ _ h
      · intro ss hss e out h
        cases ss with
        | nil =>
            simp only [emitStmts] at h
            have hout := Except.ok.inj h
            subst hout
            exact emFrame_refl e
        | cons s rest =>
            have hszs : sizeOf s ≤ n := by
              simp only [List.cons.sizeOf_spec] at hss; omega
            have hszr : sizeOf rest ≤ n := by
              simp only [List.cons.sizeOf_spec] at hss; omega
            simp only [emitStmts] at h
            obtain ⟨e1, h1, h⟩ := exceptBind_elim h
            exact (ihS s hszs _ _ h1).comp (ihL rest hszr _ _ h)

/-- `EmitCode` of a statement leaves an emitter frame. -/
theorem emitStmt_frame (st : Stmt) (e out : Emitter)
    (h : emitStmt st e = Except.ok out) : EmFrame e out :=
  (emitStmt_frame_aux (sizeOf st)).1 st (Nat.le_refl _) e out h

/-- **C8**: a successful `IfStmt.EmitCode` run emits, in order: the `IfStmt`
comment, the condition code, `cmp al, 1`, `jne` to the false label, the
then-branch code, `jmp` to the end label, the false label line, the
else-branch code (empty when there is no else branch), and the end label
line.  The false label's number `e2.labelCount + 1` is strictly below the
end label's `e6.labelCount + 1`, so the two labels are distinct and the
then-branch never falls through into the else-branch. -/
theorem c8_if_emission (it : Token) (cond : Expr) (st : Stmt)
    (els : Option Stmt) (em out : Emitter)
    (h : emitStmt (Stmt.ifStmt it cond st els) em = Except.ok out) :
    ∃ (e2 e6 : Emitter) (dCond dThen dElse : List String),
      emitExpr cond (em.write ifHeader) = Except.ok e2 ∧
      e2.code = em.code ++ [ifHeader] ++ dCond ∧
      emitStmt st (jneStep e2) = Except.ok e6 ∧
      e6.code = em.code ++ [ifHeader] ++ dCond
        ++ ["cmp al, 1
",
            "jne " ++ Emitter.labelName (e2.labelCount + 1) ++ "
"]
        ++ dThen ∧
      e2.labelCount + 1 < e6.labelCount + 1 ∧
      (els = none → dElse = []) ∧
      (∀ es, els = some es →
        ∃ e10, emitStmt es (elseEntry e2 e6) = Except.ok e10 ∧
          e10.code = (elseEntry e2 e6).code ++ dElse) ∧
      out.code = em.code ++ [ifHeader] ++ dCond
        ++ ["cmp al, 1
",
            "jne " ++ Emitter.labelName (e2.labelCount + 1) ++ "
"]
        ++ dThen
        ++ ["jmp " ++ Emitter.labelName (e6.labelCount + 1) ++ "
",
            Emitter.labelName (e2.labelCount + 1) ++ ":
"]
        ++ dElse
        ++ [Emitter.labelName (e6.labelCount + 1) ++ ":
"] := by
  simp only [emitStmt, Emitter.nextLabel] at h
  obtain ⟨e2, hc, h⟩ := exceptBind_elim h
  obtain ⟨e6, hs, h⟩ := exceptBind_elim h
  obtain ⟨dCond, hdc⟩ := (emitExpr_frame cond _ _ hc).1
  obtain ⟨dThen, hdt⟩ := (emitStmt_frame st _ _ hs).1
  have hlbl : e2.labelCount + 1 ≤ e6.labelCount :=
    (emitStmt_frame st _ _ hs).2
  cases els with
  | none =>
      obtain ⟨e10, h10, h⟩ := exceptBind_elim h
      have hout := Except.ok.inj h
      subst hout
      have h10e := Except.ok.inj h10
      subst h10e
      refine ⟨e2, e6, dCond, dThen, [], hc, ?_, hs, ?_, by omega,
        fun _ => rfl, fun es hes => Option.noConfusion hes, ?_⟩
      · simpa [Emitter.write, ifHeader] using hdc
      · simp [Emitter.write, ifHeader, hdt, hdc]
      · simp [Emitter.write, ifHeader, hdt, hdc]
  | some es =>
      obtain ⟨e10, h10, h⟩ := exceptBind_elim h
      have hout := Except.ok.inj h
      subst hout
      obtain ⟨dElse, hde⟩ := (emitStmt_frame es _ _ h10).1
      refine ⟨e2, e6, dCond, dThen, dElse, hc, ?_, hs, ?_, by omega,
        fun hnone => Option.noConfusion hnone, ?_, ?_⟩
      · simpa [Emitter.write, ifHeader] using hdc
      · simp [Emitter.write, ifHeader, hdt, hdc]
      · intro es2 hes
        have hes2 := Option.some.inj hes
        subst hes2
        exact ⟨e10, h10, hde⟩
      · simp [Emitter.write, ifHeader, elseEntry, Emitter.nextLabel,
          hde, hdt, hdc]

/-- **C8** witness: the theorem instantiated on `c8Stmt`
(`if true { 1; } else { 2; }`) emitted from a fresh emitter into `c8Out`;
the hypothesis is discharged by computation. -/
theorem c8_if_emission_witness :
    ∃ (e2 e6 : Emitter) (dCond dThen dElse : List String),
      emitExpr (Expr.lit Ty.bool (mkToken .TRUE_LIT "true"))
        (Emitter.new.write ifHeader) = Except.ok e2 ∧
      e2.code = Emitter.new.code ++ [ifHeader] ++ dCond ∧
      emitStmt (Stmt.exprStmt (Expr.lit Ty.uintLiteral
          (mkToken .UINT_64_LIT "1"))) (jneStep e2) = Except.ok e6 ∧
      e6.code = Emitter.new.code ++ [ifHeader] ++ dCond
        ++ ["cmp al, 1
",
            "jne " ++ Emitter.labelName (e2.labelCount + 1) ++ "
"]
        ++ dThen ∧
      e2.labelCount + 1 < e6.labelCount + 1 ∧
      ((some (Stmt.exprStmt (Expr.lit Ty.uintLiteral
          (mkToken .UINT_64_LIT "2"))) : Option Stmt) = none → dElse = []) ∧
      (∀ es, (some (Stmt.exprStmt (Expr.lit Ty.uintLiteral
          (mkToken .UINT_64_LIT "2"))) : Option Stmt) = some es →
        ∃ e10, emitStmt es (elseEntry e2 e6) = Except.ok e10 ∧
          e10.code = (elseEntry e2 e6).code ++ dElse) ∧
      c8Out.code = Emitter.new.code ++ [ifHeader] ++ dCond
        ++ ["cmp al, 1
",
            "jne " ++ Emitter.labelName (e2.labelCount + 1) ++ "
"]
        ++ dThen
        ++ ["jmp " ++ Emitter.labelName (e6.labelCount + 1) ++ "
",
            Emitter.labelName (e2.labelCount + 1) ++ ":
"]
        ++ dElse
        ++ [Emitter.labelName (e6.labelCount + 1) ++ ":
"] :=
  c8_if_emission (mkToken .IF "if")
    (Expr.lit Ty.bool (mkToken .TRUE_LIT "true"))
    (Stmt.exprStmt (Expr.lit Ty.uintLiteral (mkToken .UINT_64_LIT "1")))
    (some (Stmt.exprStmt (Expr.lit Ty.uintLiteral (mkToken .UINT_64_LIT "2"))))
    Emitter.new c8Out rfl

/-- **C10** witness: declare `uint64 x` (offset 8), pop its scope, and the
theorem instantiates — the popped run's `nextAddr` still bounds `x`'s
offset, and a new `uint64 y` declared afterwards gets a strictly larger
offset (16: the freed slot is not reused). -/
theorem c10_offsets_monotone_witness :
    (SemanticChecker.new.popBlock).1.nextAddr = SemanticChecker.new.nextAddr ∧
    Symbol.offset ⟨"x", Ty.uint64, 8, 8, mkToken .IDENT "x"⟩ ≤
      (runOps [CheckerOp.pushSym "x" Ty.uint64 (mkToken .IDENT "x"),
        CheckerOp.popBlock] SemanticChecker.new).nextAddr := by
  have h := c10_offsets_monotone_amended
    [CheckerOp.pushSym "x" Ty.uint64 (mkToken .IDENT "x"), CheckerOp.popBlock]
    SemanticChecker.new ⟨"x", Ty.uint64, 8, 8, mkToken .IDENT "x"⟩
    (by decide) "y" Ty.uint64 (mkToken .IDENT "y") _ rfl
  exact ⟨h.1, h.2.1⟩

end Clovis
